import Mathlib

/-!
# Verification of `src/scripts/game-engine.js` (class `GameEngine`)

A shallow embedding of the typing-game engine.

Modelling conventions
* A JavaScript string is the list of its code units: `Str := List Char`.
  `slice`, indexing and `length` are `List.take`/`List.drop`, `xs[i]?` and
  `List.length`.
* JavaScript numbers that hold times (`currentTime`, `maxTime`,
  `roundDuration`, the decay, heal and penalty constants) are exact rationals
  `ℚ`: `tick` and the statements about it are about exact decimal arithmetic.
  The source's own arithmetic is given beside it: `tickWith toDouble` is the
  same callback with every literal and every arithmetic result rounded to an
  IEEE-754 double (`tick` is `tickWith id`). Counters (`score`, `totalScore`,
  `combo`, `round`) are natural numbers.
* `Math.random()` is an explicit argument: a rational draw `r` with
  `0 ≤ r < 1` (`Draws.Valid`).
* `this.emit(name, payload)` appends an `Event` to the list of events returned
  by each operation, in call order. The table `this.listeners` is written only
  by `on` and read only by `emit`; it is modelled apart from the state, as
  `Listeners`, with callbacks identified by numbers.
* `setInterval`/`clearInterval`/`setTimeout` of the host are modelled by the
  fields `activeIntervals`, `nextHandle` and `pendingHud` of the state.
-/

namespace GameEngine

/-- A JavaScript string, as the list of its code units. -/
abbrev Str := List Char

/-- The three game modes `'normal'`, `'zen'`, `'chaos'`. -/
inductive Mode where
  | normal
  | zen
  | chaos
  deriving DecidableEq, Repr

/-- The object returned by `getHUDState()`. -/
structure HUDState where
  score : Nat
  totalScore : Nat
  combo : Nat
  round : Nat
  totalRounds : Nat
  mode : Mode
  time : ℚ
  deriving DecidableEq

/-- One call of `this.emit(name, payload)`: the event name with its payload. -/
inductive Event where
  | updateHud (hud : HUDState)
  | updateTimer (time max roundProgress : ℚ)
  | newWord (word : Str)
  | inputCheck (matchLength : Nat) (isError : Bool) (errorIndex : Int) (inputLength : Nat)
  | mascotError
  | mascotTyping
  | roundChange (round : Nat)
  | gameStart (mode : Mode)
  | gameOver (score totalScore : Nat)
  | gameWin (score totalScore : Nat)
  deriving DecidableEq

/-- The action hint returned by `validateInput`. -/
inductive Action where
  | clear
  | continue
  deriving DecidableEq, Repr

/-- The word list `this.words` of the constructor (lines 3-36), in source order. -/
def words : List Str :=
  ["token", "prompt", "rag", "vector", "memory", "window", "feature",
   "helm", "kind", "k9s", "aws", "az",
   "docker", "image", "volume", "build", "push", "pull", "run", "exec",
   "ls", "cd", "pwd", "cp", "mv", "rm", "cat", "tail",
   "head", "grep", "awk", "sed", "chmod",
   "ps", "top", "htop", "kill", "curl", "wget",
   "ssh", "scp", "ping", "uname", "dmesg",
   "mount", "umount", "df", "du",
   "cache", "queue", "stack", "heap", "mutex",
   "thread", "async", "await", "event",
   "socket", "tcp", "udp", "http", "https",
   "json", "yaml", "proto",
   "redis", "mysql", "sqlite",
   "nginx", "proxy", "load",
   "auth", "token",
   "build", "debug", "trace",
   "hash", "crypt", "sha",
   "vscode", "vim", "nano",
   "linux", "unix", "posix"].map String.toList

/-- The constructor's `this.maxRoundDuration = 20`; never reassigned. -/
def maxRoundDuration : ℚ := 20

/-- The constructor's `this.totalRounds = 10`; never reassigned. -/
def totalRounds : Nat := 10

/-- The fields of `this`, together with the host's scheduler: the interval
handles that are currently scheduled, the next fresh handle, and the number of
`setTimeout(..., 0)` callbacks of `resetGame` that have not run yet. -/
structure State where
  currentWord : Str
  score : Nat
  combo : Nat
  mode : Mode
  isPlaying : Bool
  timer : Option Nat
  totalScore : Nat
  round : Nat
  roundDuration : ℚ
  maxTime : ℚ
  currentTime : ℚ
  activeIntervals : List Nat
  nextHandle : Nat
  pendingHud : Nat
  deriving DecidableEq

/-- The state built by the constructor (lines 39-61). Handles start at 1, so
every handle is truthy. -/
def new : State :=
  { currentWord := [], score := 0, combo := 0, mode := .normal, isPlaying := false,
    timer := none, totalScore := 0, round := 1, roundDuration := 0,
    maxTime := 60, currentTime := 60,
    activeIntervals := [], nextHandle := 1, pendingHud := 0 }

/-- The random draws one call of `nextWord` may consume, in call order:
`w` picks the base word; `r` is `corruptWord`'s first draw; `u` is its second
draw (the letter on the insert path, the position on the delete and swap
paths); `v` is its third draw (the position on the insert path). -/
structure Draws where
  w : ℚ
  r : ℚ
  u : ℚ
  v : ℚ
  deriving DecidableEq

/-- What `Math.random()` guarantees of a draw: `0 ≤ x < 1`. -/
def unitDraw (x : ℚ) : Prop := 0 ≤ x ∧ x < 1

instance (x : ℚ) : Decidable (unitDraw x) := by unfold unitDraw; infer_instance

/-- Every draw is in `[0, 1)`. -/
def Draws.Valid (d : Draws) : Prop :=
  unitDraw d.w ∧ unitDraw d.r ∧ unitDraw d.u ∧ unitDraw d.v

instance (d : Draws) : Decidable d.Valid := by unfold Draws.Valid; infer_instance

/-- `getHUDState()` (lines 292-302). -/
def getHUDState (s : State) : HUDState :=
  { score := s.score, totalScore := s.totalScore, combo := s.combo, round := s.round,
    totalRounds := totalRounds, mode := s.mode, time := s.currentTime }

/-- `clearInterval(h)`: the handle stops being scheduled; `null` clears nothing. -/
def clearInterval (h : Option Nat) (s : State) : State :=
  match h with
  | some n => { s with activeIntervals := s.activeIntervals.filter (fun k => k != n) }
  | none => s

/-- The guard `if (this.timer) clearInterval(this.timer)`: a handle is truthy
when it is not `null` and not `0`. -/
def clearTimerIfSet (s : State) : State :=
  match s.timer with
  | some n => if n ≠ 0 then clearInterval (some n) s else s
  | none => s

/-- `resetGame(mode)` (lines 68-95). The `update-hud` emission is deferred by
`setTimeout(..., 0)`: it is counted in `pendingHud` and no event is emitted by
the call itself. -/
def resetGame (mode : Mode) (s : State) : State × List Event :=
  let s := { s with mode := mode, score := 0, combo := 0, round := 1,
                    roundDuration := 0, isPlaying := false }
  let s :=
    if s.mode = .zen then { s with maxTime := 999, currentTime := 999 }
    else if s.mode = .chaos then
      let s := { s with maxTime := 30 }
      { s with currentTime := s.maxTime }
    else
      let s := { s with maxTime := 60 }
      { s with currentTime := s.maxTime }
  let s := clearTimerIfSet s
  ({ s with pendingHud := s.pendingHud + 1 }, [])

/-- The deferred callback of `resetGame` (lines 92-94), when one is pending. -/
def hudTimeout (s : State) : State × List Event :=
  if s.pendingHud = 0 then (s, [])
  else ({ s with pendingHud := s.pendingHud - 1 }, [.updateHud (getHUDState s)])

/-- `init()` (lines 64-66). -/
def init (s : State) : State × List Event := resetGame .normal s

/-- `word[i]` used as a string operand of `+`: the one-character string, or
`"undefined"` when `i` is out of range. -/
def charAt (word : Str) (i : Nat) : Str :=
  match word[i]? with
  | some c => [c]
  | none => "undefined".toList

/-- `Math.floor(x * n)` for a draw `x` and a count `n`. -/
def floorMul (x : ℚ) (n : Nat) : Nat := ⌊x * (n : ℚ)⌋₊

/-- `corruptWord(word)` (lines 176-194), with its draws `r`, `u`, `v` in call
order. -/
def corruptWord (word : Str) (r u v : ℚ) : Str :=
  if word.length < 3 then word
  else if r < 0.3 then
    let char := Char.ofNat (97 + floorMul u 26)
    let pos := floorMul v (word.length + 1)
    word.take pos ++ [char] ++ word.drop pos
  else if r < 0.6 then
    let pos := floorMul u word.length
    word.take pos ++ word.drop (pos + 1)
  else
    let pos := floorMul u (word.length - 1)
    word.take pos ++ charAt word (pos + 1) ++ charAt word pos ++ word.drop (pos + 2)

/-- The word `nextWord` selects (lines 164-171). An index outside the list
(impossible for a valid draw) reads as the empty string. -/
def pickWord (mode : Mode) (d : Draws) : Str :=
  let baseWord := words.getD (floorMul d.w words.length) []
  if mode = .chaos then corruptWord baseWord d.r d.u d.v else baseWord

/-- `nextWord()` (lines 163-174). -/
def nextWord (d : Draws) (s : State) : State × List Event :=
  let s := { s with currentWord := pickWord s.mode d }
  (s, [.newWord s.currentWord])

/-- `gameOver()` (lines 280-284). -/
def gameOver (s : State) : State × List Event :=
  let s := { s with isPlaying := false }
  let s := clearInterval s.timer s
  (s, [.gameOver s.score s.totalScore])

/-- `gameWin()` (lines 286-290). -/
def gameWin (s : State) : State × List Event :=
  let s := { s with isPlaying := false }
  let s := clearInterval s.timer s
  (s, [.gameWin s.score s.totalScore])

/-- `advanceRound()` (lines 150-161). -/
def advanceRound (s : State) : State × List Event :=
  if s.round ≥ totalRounds then gameWin s
  else
    let s := { s with round := s.round + 1 }
    let s := { s with roundDuration := 0 }
    let s := if s.mode ≠ .zen then { s with currentTime := min s.maxTime (s.currentTime + 10) } else s
    (s, [.roundChange s.round, .updateHud (getHUDState s)])

/-- The decay the tick callback subtracts (lines 112-122). -/
def tickDecay (s : State) : ℚ :=
  if s.mode = .normal then
    if s.round ≤ 2 then 0.1
    else if s.round ≤ 5 then 0.15
    else 0.25
  else if s.mode = .chaos then 0.4
  else 0.1

/-- One run of the interval callback of `startTimer` (lines 107-147). -/
def tick (s : State) : State × List Event :=
  if s.isPlaying = false then (s, [])
  else
    let s1 := if s.mode ≠ .zen then { s with currentTime := s.currentTime - tickDecay s } else s
    if s.mode ≠ .zen ∧ s1.currentTime ≤ 0 then gameOver s1
    else
      let r :=
        if s1.mode = .normal then
          let s2 := { s1 with roundDuration := s1.roundDuration + 0.1 }
          if s2.roundDuration ≥ maxRoundDuration then advanceRound s2 else (s2, [])
        else (s1, [])
      (r.1, r.2 ++ [.updateTimer r.1.currentTime r.1.maxTime
                      (r.1.roundDuration / maxRoundDuration * 100)])

/-- `startTimer()` (lines 105-148): cancel the stored handle when set, then
schedule a fresh interval and store its handle. -/
def startTimer (s : State) : State :=
  let s := clearTimerIfSet s
  { s with timer := some s.nextHandle,
           activeIntervals := s.nextHandle :: s.activeIntervals,
           nextHandle := s.nextHandle + 1 }

/-- `startGame(mode)` (lines 97-103); `none` is a call without a mode. -/
def startGame (mode : Option Mode) (d : Draws) (s : State) : State × List Event :=
  let r0 := match mode with
    | some m => resetGame m s
    | none => (s, [])
  let s1 := { r0.1 with isPlaying := true }
  let r1 := nextWord d s1
  let s2 := startTimer r1.1
  (s2, r0.2 ++ r1.2 ++ [.gameStart s2.mode])

/-- `wordCompleted()` (lines 257-278). -/
def wordCompleted (d : Draws) (s : State) : State × List Event :=
  let points := 10 + s.combo * 2
  let s := { s with score := s.score + points }
  let s := { s with totalScore := s.totalScore + points }
  let s := { s with combo := s.combo + 1 }
  let s :=
    if s.mode = .normal then
      let cure : ℚ := 2
      let cure := if s.round > 2 then 1.5 else cure
      let cure := if s.round > 5 then 0.8 else cure
      { s with currentTime := min s.maxTime (s.currentTime + cure) }
    else if s.mode = .chaos then
      { s with currentTime := min s.maxTime (s.currentTime + 1.5) }
    else s
  let r := nextWord d s
  (r.1, [.updateHud (getHUDState s), .mascotTyping] ++ r.2)

/-- The locals `matchLength`, `isError`, `errorIndex` of `validateInput`. -/
structure Check where
  matchLength : Nat
  isError : Bool
  errorIndex : Int
  deriving DecidableEq

/-- The `for` loop of `validateInput` (lines 218-231), from index `i` on:
`cleanText` and `target` are the parts of the two strings from index `i`. -/
def checkLoop : Str → Str → Nat → Nat → Check
  | [], _, _, matchLength => ⟨matchLength, false, -1⟩
  | _ :: _, [], i, matchLength => ⟨matchLength, true, i⟩
  | c :: cleanText, t :: target, i, matchLength =>
    if c = t then checkLoop cleanText target (i + 1) (matchLength + 1)
    else ⟨matchLength, true, i⟩

/-- `String.prototype.trim`, on ASCII white space. -/
def trim (text : Str) : Str :=
  ((text.dropWhile Char.isWhitespace).reverse.dropWhile Char.isWhitespace).reverse

/-- `String.prototype.toLowerCase`, on ASCII letters. -/
def toLowerCase (text : Str) : Str := text.map Char.toLower

/-- The normalised input `text.trim().toLowerCase()` (line 205). -/
def cleanText (text : Str) : Str := toLowerCase (trim text)

/-- `validateInput(text)` (lines 196-255). The third component is the returned
value: `none` is `undefined`. -/
def validateInput (text : Str) (d : Draws) (s : State) : State × List Event × Option Action :=
  if s.isPlaying = false then (s, [], none)
  else
    let clean := cleanText text
    let target := s.currentWord
    if clean = target then
      let r := wordCompleted d s
      (r.1, r.2, some .clear)
    else
      let c := checkLoop clean target 0 0
      let r : State × List Event :=
        if c.isError = true then
          let s1 := if s.mode ≠ .zen then { s with currentTime := max 0 (s.currentTime - 1.0) } else s
          if s1.combo > 0 then
            let s2 := { s1 with combo := 0 }
            (s2, [.mascotError, .updateHud (getHUDState s2)])
          else (s1, [.mascotError])
        else (s, [.mascotTyping])
      (r.1, r.2 ++ [.inputCheck c.matchLength c.isError c.errorIndex clean.length], some .continue)

/-- What can happen during a game: the interval callback runs, or the
presentation layer calls `validateInput`. -/
inductive Act where
  | tick
  | type (text : Str) (d : Draws)

/-- The effect of one `Act`: the next state and the events emitted. -/
def act (a : Act) (s : State) : State × List Event :=
  match a with
  | .tick => tick s
  | .type text d => let r := validateInput text d s; (r.1, r.2.1)

/-- A sequence of `Act`s, left to right, with all the events emitted. -/
def play : List Act → State → State × List Event
  | [], s => (s, [])
  | a :: as, s =>
    let r := act a s
    let r2 := play as r.1
    (r2.1, r.2 ++ r2.2)

/-- Every call the engine can receive: the public operations and the host's
callbacks. -/
inductive Op where
  | reset (mode : Mode)
  | start (mode : Option Mode) (d : Draws)
  | hud
  | act (a : Act)

/-- The effect of one `Op`. -/
def step (o : Op) (s : State) : State × List Event :=
  match o with
  | .reset m => resetGame m s
  | .start m d => startGame m d s
  | .hud => hudTimeout s
  | .act a => act a s

/-- A sequence of `Op`s, left to right, with all the events emitted. -/
def run : List Op → State → State × List Event
  | [], s => (s, [])
  | o :: os, s =>
    let r := step o s
    let r2 := run os r.1
    (r2.1, r.2 ++ r2.2)

/-- `n` consecutive ticks with no input. -/
def ticks (n : Nat) : List Act := List.replicate n Act.tick

/-- An event is terminal when it is `game-over` or `game-win`. -/
def Event.isTerminal : Event → Bool
  | .gameOver _ _ => true
  | .gameWin _ _ => true
  | _ => false

/-! ## The event bus -/

/-- A subscriber callback, identified by a number. -/
abbrev Callback := Nat

/-- The own properties of the object `this.listeners`: for an event name, the
array of its callbacks in registration order, or `none` when the object has no
own property of that name. -/
abbrev Listeners := String → Option (List Callback)

/-- The constructor's `this.listeners = {}`: an object without own property. -/
def noListeners : Listeners := fun _ => none

/-- The property names an object literal inherits from `Object.prototype`.
Each reads as a truthy value that is not an array: a function, or the
prototype object itself for `__proto__`. -/
def inheritedNames : List String :=
  ["constructor", "hasOwnProperty", "isPrototypeOf", "propertyIsEnumerable",
   "toLocaleString", "toString", "valueOf", "__proto__",
   "__defineGetter__", "__defineSetter__", "__lookupGetter__", "__lookupSetter__"]

/-- An exception thrown by the JavaScript runtime. -/
inductive JsError where
  | typeError
  deriving DecidableEq, Repr

/-- What the expression `this.listeners[event]` reads. -/
inductive Slot where
  | array (callbacks : List Callback)
  | inherited
  | undefined
  deriving DecidableEq

/-- The read `this.listeners[event]`: the own property when there is one,
otherwise the inherited value when the name is inherited, otherwise
`undefined`. -/
def readSlot (ls : Listeners) (event : String) : Slot :=
  match ls event with
  | some cbs => .array cbs
  | none => if event ∈ inheritedNames then .inherited else .undefined

/-- `on(event, callback)` (lines 304-307): create the array when
`this.listeners[event]` is falsy, then call `push` on what
`this.listeners[event]` reads. An inherited value is truthy and has no `push`,
so the call throws `TypeError`. (`on` is a reserved word of Lean, hence the
name.) -/
def onEvent (event : String) (callback : Callback) (ls : Listeners) :
    Except JsError Listeners :=
  let ls : Listeners :=
    match readSlot ls event with
    | .undefined => fun e => if e = event then some [] else ls e
    | _ => ls
  match readSlot ls event with
  | .array cbs => .ok (fun e => if e = event then some (cbs ++ [callback]) else ls e)
  | _ => .error .typeError

/-- `emit(event, data)` (lines 309-313): the calls `cb(data)` it makes, in
order. An inherited value is truthy and has no `forEach`, so the call throws
`TypeError`. -/
def emit {δ : Type} (event : String) (data : δ) (ls : Listeners) :
    Except JsError (List (Callback × δ)) :=
  match readSlot ls event with
  | .array cbs => .ok (cbs.map (fun cb => (cb, data)))
  | .inherited => .error .typeError
  | .undefined => .ok []

/-- The name under which the engine emits an event (the first argument of
`this.emit`). -/
def Event.name : Event → String
  | .updateHud _ => "update-hud"
  | .updateTimer _ _ _ => "update-timer"
  | .newWord _ => "new-word"
  | .inputCheck _ _ _ _ => "input-check"
  | .mascotError => "mascot-error"
  | .mascotTyping => "mascot-typing"
  | .roundChange _ => "round-change"
  | .gameStart _ => "game-start"
  | .gameOver _ _ => "game-over"
  | .gameWin _ _ => "game-win"

/-- The callback calls the engine's events cause, in order. -/
def deliver (ls : Listeners) : List Event → Except JsError (List (Callback × Event))
  | [] => .ok []
  | e :: rest =>
    match emit e.name e ls, deliver ls rest with
    | .ok calls, .ok more => .ok (calls ++ more)
    | .error err, _ => .error err
    | _, .error err => .error err

/-- A sequence of `on(event, callback)` calls, left to right; the first
exception ends it. -/
def subscribe : List (String × Callback) → Listeners → Except JsError Listeners
  | [], ls => .ok ls
  | r :: rest, ls =>
    match onEvent r.1 r.2 ls with
    | .ok ls1 => subscribe rest ls1
    | .error err => .error err

/-! ## The tick in the source's arithmetic (IEEE-754 doubles) -/


/-- The power `2 ^ e` as a rational, for an integer exponent. -/
def pow2 (e : Int) : ℚ :=
  if 0 ≤ e then ((2 ^ e.toNat : Nat) : ℚ) else 1 / ((2 ^ (-e).toNat : Nat) : ℚ)

/-- The binary logarithm of `n`, rounded down, by at most `fuel` halvings;
`fuel = n` is always enough (`log2Fuel_eq`). -/
def log2Fuel : Nat → Nat → Nat
  | 0, _ => 0
  | fuel + 1, n => if 2 ≤ n then log2Fuel fuel (n / 2) + 1 else 0

/-- The binary exponent of a positive rational `a`: the greatest `e` with
`2 ^ e ≤ a`. It is `log2 num - log2 den` or one less. -/
def binaryExponent (a : ℚ) : Int :=
  let e0 : Int := (log2Fuel a.num.natAbs a.num.natAbs : Int) - (log2Fuel a.den a.den : Int)
  if pow2 e0 ≤ a then e0 else e0 - 1

/-- Rounding to the nearest integer, ties to the even one. -/
def roundHalfEven (q : ℚ) : Int :=
  let f := ⌊q⌋
  let r := q - f
  if r < 1 / 2 then f
  else if 1 / 2 < r then f + 1
  else if f % 2 = 0 then f else f + 1

/-- The IEEE-754 binary64 value of a real number, as JavaScript computes every
arithmetic result and reads every numeric literal: round to nearest with 53
significant bits, ties to even, gradual underflow below `2 ^ (-1022)`.
Overflow to infinity is not modelled (no number of the engine comes near
`2 ^ 1024`). -/
def toDouble (x : ℚ) : ℚ :=
  if x = 0 then 0
  else
    let a := if x < 0 then -x else x
    let e := max (binaryExponent a) (-1022)
    let ulp := pow2 (e - 52)
    let m := roundHalfEven (a / ulp)
    if x < 0 then -((m : ℚ) * ulp) else (m : ℚ) * ulp

/-- The decay of the tick callback (lines 112-122) with its literals read by
`rnd`. -/
def tickDecayWith (rnd : ℚ → ℚ) (s : State) : ℚ :=
  if s.mode = .normal then
    if s.round ≤ 2 then rnd 0.1
    else if s.round ≤ 5 then rnd 0.15
    else rnd 0.25
  else if s.mode = .chaos then rnd 0.4
  else rnd 0.1

/-- `advanceRound()` (lines 150-161) with every arithmetic result rounded by
`rnd`. -/
def advanceRoundWith (rnd : ℚ → ℚ) (s : State) : State × List Event :=
  if s.round ≥ totalRounds then gameWin s
  else
    let s := { s with round := s.round + 1 }
    let s := { s with roundDuration := 0 }
    let s := if s.mode ≠ .zen
      then { s with currentTime := min s.maxTime (rnd (s.currentTime + 10)) } else s
    (s, [.roundChange s.round, .updateHud (getHUDState s)])

/-- The interval callback (lines 107-147) with every literal read and every
arithmetic result rounded by `rnd`: `tick` is the case of exact arithmetic,
`rnd = id`, and the source's own arithmetic is `rnd = toDouble`. -/
def tickWith (rnd : ℚ → ℚ) (s : State) : State × List Event :=
  if s.isPlaying = false then (s, [])
  else
    let s1 := if s.mode ≠ .zen
      then { s with currentTime := rnd (s.currentTime - tickDecayWith rnd s) } else s
    if s.mode ≠ .zen ∧ s1.currentTime ≤ 0 then gameOver s1
    else
      let r :=
        if s1.mode = .normal then
          let s2 := { s1 with roundDuration := rnd (s1.roundDuration + rnd 0.1) }
          if s2.roundDuration ≥ maxRoundDuration then advanceRoundWith rnd s2 else (s2, [])
        else (s1, [])
      (r.1, r.2 ++ [.updateTimer r.1.currentTime r.1.maxTime
                      (rnd (rnd (r.1.roundDuration / maxRoundDuration) * 100))])

/-- `n` runs of the interval callback with arithmetic rounded by `rnd`, and no
input. -/
def ticksWith (rnd : ℚ → ℚ) : Nat → State → State × List Event
  | 0, s => (s, [])
  | n + 1, s =>
    let r := tickWith rnd s
    let r2 := ticksWith rnd n r.1
    (r2.1, r.2 ++ r2.2)

/-- A trace of `currentTime` over chaos ticks computed in doubles that all
leave time on the clock: each value is the double of the value before it minus
the double of `0.4`, and is above 0. The first argument is the value before
the first tick. -/
def aliveTrace : ℚ → List ℚ → Bool
  | _, [] => true
  | a, b :: rest =>
    decide (toDouble (a - toDouble 0.4) = b) && decide (0 < b) && aliveTrace b rest

/-- The value of `currentTime` after each of the first 75 ticks of an
unattended chaos game, in doubles, as exact fractions: `29.6`,
`29.200000000000003`, ..., `0.40000000000003966`, `3.963496197911809e-14`. -/
def chaosDoubleTrace : List ℚ :=
  [4165829655317709 / 140737488355328, 2054767329987789 / 70368744177664,
   4053239664633447 / 140737488355328, 999236167322829 / 35184372088832,
   3940649673949185 / 140737488355328, 1942177339303527 / 70368744177664,
   3828059683264923 / 140737488355328, 471470585990349 / 17592186044416,
   3715469692580661 / 140737488355328, 1829587348619265 / 70368744177664,
   3602879701896399 / 140737488355328, 886646176638567 / 35184372088832,
   3490289711212137 / 140737488355328, 1716997357935003 / 70368744177664,
   3377699720527875 / 140737488355328, 207587795324109 / 8796093022208,
   3265109729843613 / 140737488355328, 1604407367250741 / 70368744177664,
   3152519739159351 / 140737488355328, 774056185954305 / 35184372088832,
   3039929748475089 / 140737488355328, 1491817376566479 / 70368744177664,
   2927339757790827 / 140737488355328, 358880595306087 / 17592186044416,
   2814749767106565 / 140737488355328, 1379227385882217 / 70368744177664,
   2702159776422303 / 140737488355328, 661466195270043 / 35184372088832,
   2589569785738041 / 140737488355328, 1266637395197955 / 70368744177664,
   2476979795053779 / 140737488355328, 75646399990989 / 4398046511104,
   2364389804369517 / 140737488355328, 1154047404513693 / 70368744177664,
   2251799813685255 / 140737488355328, 8782019273372495 / 562949953421312,
   4278419646001985 / 281474976710656, 8331659310635445 / 562949953421312,
   1013309916158365 / 70368744177664, 7881299347898395 / 562949953421312,
   3828059683264935 / 281474976710656, 7430939385161345 / 562949953421312,
   1801439850948205 / 140737488355328, 6980579422424295 / 562949953421312,
   3377699720527885 / 281474976710656, 6530219459687245 / 562949953421312,
   49258120924365 / 4398046511104, 6079859496950195 / 562949953421312,
   2927339757790835 / 281474976710656, 5629499534213145 / 562949953421312,
   1351079888211155 / 140737488355328, 5179139571476095 / 562949953421312,
   2476979795053785 / 281474976710656, 4728779608739045 / 562949953421312,
   562949953421315 / 70368744177664, 4278419646001995 / 562949953421312,
   2026619832316735 / 281474976710656, 3828059683264945 / 562949953421312,
   900719925474105 / 140737488355328, 3377699720527895 / 562949953421312,
   1576259869579685 / 281474976710656, 2927339757790845 / 562949953421312,
   168884986026395 / 35184372088832, 2476979795053795 / 562949953421312,
   1125899906842635 / 281474976710656, 8106479329266981 / 2251799813685248,
   3602879701896441 / 1125899906842624, 6305039478318783 / 2251799813685248,
   1351079888211171 / 562949953421312, 4503599627370585 / 2251799813685248,
   1801439850948243 / 1125899906842624, 2702159776422387 / 2251799813685248,
   7205759403793151 / 9007199254740992, 1801439850948377 / 4503599627370496,
   357 / 9007199254740992]

/-! ## Predicates used in the statements -/

/-- `b` is `a` with one lowercase letter inserted at some position. -/
def IsInsertion (a b : Str) : Prop :=
  ∃ pos ch, pos ≤ a.length ∧ ch.isLower = true ∧ b = a.take pos ++ ch :: a.drop pos

/-- `b` is `a` with the character at some position removed. -/
def IsDeletion (a b : Str) : Prop :=
  ∃ pos, pos < a.length ∧ b = a.take pos ++ a.drop (pos + 1)

/-- `b` is `a` with the characters at two adjacent positions exchanged. -/
def IsAdjacentSwap (a b : Str) : Prop :=
  ∃ pos x y, a[pos]? = some x ∧ a[pos + 1]? = some y ∧
    b = a.take pos ++ y :: x :: a.drop (pos + 2)

/-- An event is a round change. -/
def Event.isRoundChange : Event → Bool
  | .roundChange _ => true
  | _ => false

/-- The state a zen game is in for its whole life. -/
def ZenRunning (s : State) : Prop :=
  s.mode = .zen ∧ s.isPlaying = true ∧ s.currentTime = 999 ∧ s.round = 1

/-- The bounds on `currentTime` that the code keeps: at most `maxTime` always,
non-negative while playing, and at least `-2/5` (one chaos decay of 0.4)
always. -/
def TimeOk (s : State) : Prop :=
  s.currentTime ≤ s.maxTime ∧ (s.isPlaying = true → 0 ≤ s.currentTime) ∧
    -(2 / 5) ≤ s.currentTime

/-- The timer discipline: every scheduled interval is the stored, non-zero
handle `this.timer`; exactly one interval is scheduled while playing and none
otherwise; fresh handles are non-zero. -/
def TimerOk (s : State) : Prop :=
  (∀ h ∈ s.activeIntervals, h ≠ 0 ∧ s.timer = some h) ∧
  s.activeIntervals.length = (if s.isPlaying = true then 1 else 0) ∧
  1 ≤ s.nextHandle

/-- The number of words completed along a sequence of ticks and inputs in which
no input mismatches; `none` when some input typed while playing is neither the
current word nor a leading part of it. Inputs typed while not playing are
ignored by the engine and count for nothing. -/
def completions : List Act → State → Option Nat
  | [], _ => some 0
  | .tick :: rest, s => completions rest (tick s).1
  | .type text d :: rest, s =>
    if s.isPlaying = false then completions rest (validateInput text d s).1
    else if cleanText text = s.currentWord then
      (completions rest (validateInput text d s).1).map (· + 1)
    else if cleanText text <+: s.currentWord then completions rest (validateInput text d s).1
    else none

/-! ## Concrete states used as witnesses -/

/-- A playing state used to instantiate the theorems: target `rag`, a combo of
3 and half a second left. -/
def playingDemo : State :=
  { new with isPlaying := true, currentWord := "rag".toList, combo := 3, score := 42,
             totalScore := 50, currentTime := 1/2, timer := some 1, activeIntervals := [1],
             nextHandle := 2 }

/-- A state in its last round, used to instantiate the round theorems. -/
def lastRoundDemo : State := { playingDemo with round := 10, roundDuration := 20 }

/-- A freshly started normal game whose first word is `token`. -/
def freshNormal : State := (startGame (some .normal) ⟨0, 0, 0, 0⟩ new).1

/-- The state of an unattended normal game after 199 ticks: one tick before
the first round ends. -/
def roundEndDemo : State := (play (ticks 199) freshNormal).1

/-- A freshly started chaos game. -/
def freshChaos : State := (startGame (some .chaos) ⟨0, 0, 0, 0⟩ new).1

/-! ## Frame lemmas: cancelling an interval touches `activeIntervals` only -/

@[simp] theorem clearInterval_currentWord (h : Option Nat) (s : State) :
    (clearInterval h s).currentWord = s.currentWord := by
  cases h <;> rfl

@[simp] theorem clearInterval_score (h : Option Nat) (s : State) :
    (clearInterval h s).score = s.score := by
  cases h <;> rfl

@[simp] theorem clearInterval_combo (h : Option Nat) (s : State) :
    (clearInterval h s).combo = s.combo := by
  cases h <;> rfl

@[simp] theorem clearInterval_mode (h : Option Nat) (s : State) :
    (clearInterval h s).mode = s.mode := by
  cases h <;> rfl

@[simp] theorem clearInterval_isPlaying (h : Option Nat) (s : State) :
    (clearInterval h s).isPlaying = s.isPlaying := by
  cases h <;> rfl

@[simp] theorem clearInterval_timer (h : Option Nat) (s : State) :
    (clearInterval h s).timer = s.timer := by
  cases h <;> rfl

@[simp] theorem clearInterval_totalScore (h : Option Nat) (s : State) :
    (clearInterval h s).totalScore = s.totalScore := by
  cases h <;> rfl

@[simp] theorem clearInterval_round (h : Option Nat) (s : State) :
    (clearInterval h s).round = s.round := by
  cases h <;> rfl

@[simp] theorem clearInterval_roundDuration (h : Option Nat) (s : State) :
    (clearInterval h s).roundDuration = s.roundDuration := by
  cases h <;> rfl

@[simp] theorem clearInterval_maxTime (h : Option Nat) (s : State) :
    (clearInterval h s).maxTime = s.maxTime := by
  cases h <;> rfl

@[simp] theorem clearInterval_currentTime (h : Option Nat) (s : State) :
    (clearInterval h s).currentTime = s.currentTime := by
  cases h <;> rfl

@[simp] theorem clearInterval_nextHandle (h : Option Nat) (s : State) :
    (clearInterval h s).nextHandle = s.nextHandle := by
  cases h <;> rfl

@[simp] theorem clearInterval_pendingHud (h : Option Nat) (s : State) :
    (clearInterval h s).pendingHud = s.pendingHud := by
  cases h <;> rfl

@[simp] theorem clearTimerIfSet_currentWord (s : State) :
    (clearTimerIfSet s).currentWord = s.currentWord := by
  unfold clearTimerIfSet; split
  · split <;> simp
  · rfl

@[simp] theorem clearTimerIfSet_score (s : State) :
    (clearTimerIfSet s).score = s.score := by
  unfold clearTimerIfSet; split
  · split <;> simp
  · rfl

@[simp] theorem clearTimerIfSet_combo (s : State) :
    (clearTimerIfSet s).combo = s.combo := by
  unfold clearTimerIfSet; split
  · split <;> simp
  · rfl

@[simp] theorem clearTimerIfSet_mode (s : State) :
    (clearTimerIfSet s).mode = s.mode := by
  unfold clearTimerIfSet; split
  · split <;> simp
  · rfl

@[simp] theorem clearTimerIfSet_isPlaying (s : State) :
    (clearTimerIfSet s).isPlaying = s.isPlaying := by
  unfold clearTimerIfSet; split
  · split <;> simp
  · rfl

@[simp] theorem clearTimerIfSet_timer (s : State) :
    (clearTimerIfSet s).timer = s.timer := by
  unfold clearTimerIfSet; split
  · split <;> simp
  · rfl

@[simp] theorem clearTimerIfSet_totalScore (s : State) :
    (clearTimerIfSet s).totalScore = s.totalScore := by
  unfold clearTimerIfSet; split
  · split <;> simp
  · rfl

@[simp] theorem clearTimerIfSet_round (s : State) :
    (clearTimerIfSet s).round = s.round := by
  unfold clearTimerIfSet; split
  · split <;> simp
  · rfl

@[simp] theorem clearTimerIfSet_roundDuration (s : State) :
    (clearTimerIfSet s).roundDuration = s.roundDuration := by
  unfold clearTimerIfSet; split
  · split <;> simp
  · rfl

@[simp] theorem clearTimerIfSet_maxTime (s : State) :
    (clearTimerIfSet s).maxTime = s.maxTime := by
  unfold clearTimerIfSet; split
  · split <;> simp
  · rfl

@[simp] theorem clearTimerIfSet_currentTime (s : State) :
    (clearTimerIfSet s).currentTime = s.currentTime := by
  unfold clearTimerIfSet; split
  · split <;> simp
  · rfl

@[simp] theorem clearTimerIfSet_nextHandle (s : State) :
    (clearTimerIfSet s).nextHandle = s.nextHandle := by
  unfold clearTimerIfSet; split
  · split <;> simp
  · rfl

@[simp] theorem clearTimerIfSet_pendingHud (s : State) :
    (clearTimerIfSet s).pendingHud = s.pendingHud := by
  unfold clearTimerIfSet; split
  · split <;> simp
  · rfl

/-! ## The input loop -/

/-- The loop stops with an error at the first index `i` where the input differs
from the target or runs past its end, having counted `i` matches. -/
theorem checkLoop_mismatch (i : Nat) : ∀ (inp t : Str) (j m : Nat),
    inp.take i = t.take i → i < inp.length → inp[i]? ≠ t[i]? →
    checkLoop inp t j m = ⟨m + i, true, ((j + i : Nat) : Int)⟩ := by
  induction i with
  | zero =>
    intro inp t j m _ hlen hne
    cases inp with
    | nil => simp at hlen
    | cons x cs =>
      cases t with
      | nil => simp [checkLoop]
      | cons y ts =>
        have hxy : x ≠ y := by simpa using hne
        simp [checkLoop, hxy]
  | succ i ih =>
    intro inp t j m htake hlen hne
    cases inp with
    | nil => simp at hlen
    | cons x cs =>
      cases t with
      | nil => simp at htake
      | cons y ts =>
        simp only [List.take_succ_cons, List.cons.injEq] at htake
        obtain ⟨hxy, htl⟩ := htake
        have h1 : i < cs.length := by simpa using hlen
        have h2 : cs[i]? ≠ ts[i]? := by simpa using hne
        have := ih cs ts (j + 1) (m + 1) htl h1 h2
        simp only [checkLoop, hxy, if_true, this]
        congr 1
        · omega
        · push_cast; ring

/-- The loop reports an error exactly when the input is not a leading part of
the target. -/
theorem checkLoop_isError (inp : Str) : ∀ (t : Str) (j m : Nat),
    (checkLoop inp t j m).isError = true ↔ ¬ inp <+: t := by
  induction inp with
  | nil => intro t j m; simp [checkLoop]
  | cons x cs ih =>
    intro t j m
    cases t with
    | nil => simp [checkLoop]
    | cons y ts =>
      by_cases hxy : x = y
      · subst hxy
        simp only [checkLoop, if_true, ih ts (j + 1) (m + 1)]
        simp [List.cons_prefix_cons]
      · simp [checkLoop, hxy, List.cons_prefix_cons]

/-! ## Claims -/

/-- C10. While `isPlaying` is false the engine is inert: a tick returns the
same state and no event, and `validateInput` returns the same state, no event
and `undefined`, for every text and every draw. The constructor's state and
the states left by `resetGame`, `gameOver` and `gameWin` are such states. -/
theorem inert_when_not_playing :
    (∀ s : State, s.isPlaying = false →
      tick s = (s, []) ∧ ∀ text d, validateInput text d s = (s, [], none)) ∧
    new.isPlaying = false ∧
    (∀ m s, (resetGame m s).1.isPlaying = false) ∧
    (∀ s, (gameOver s).1.isPlaying = false) ∧
    (∀ s, (gameWin s).1.isPlaying = false) := by
  refine ⟨?_, rfl, ?_, ?_, ?_⟩
  · intro s hs
    refine ⟨by simp [tick, hs], fun text d => by simp [validateInput, hs]⟩
  · intro m s
    cases m <;> simp [resetGame, clearTimerIfSet, clearInterval] <;>
      (split <;> try split) <;> rfl
  · intro s
    simp [gameOver, clearInterval]; split <;> rfl
  · intro s
    simp [gameWin, clearInterval]; split <;> rfl

/-- Witness of C10 at the constructor's state. -/
theorem inert_when_not_playing_witness :
    tick new = (new, []) ∧ validateInput "ls".toList ⟨0, 0, 0, 0⟩ new = (new, [], none) :=
  ⟨(inert_when_not_playing.1 new rfl).1, (inert_when_not_playing.1 new rfl).2 _ _⟩

/-- What `wordCompleted` does to each field, and the events it emits. -/
theorem wordCompleted_fields (d : Draws) (s : State) :
    (wordCompleted d s).1.combo = s.combo + 1 ∧
    (wordCompleted d s).1.score = s.score + 10 + 2 * s.combo ∧
    (wordCompleted d s).1.totalScore = s.totalScore + 10 + 2 * s.combo ∧
    (wordCompleted d s).1.currentWord = pickWord s.mode d ∧
    (wordCompleted d s).1.isPlaying = s.isPlaying ∧
    (wordCompleted d s).1.mode = s.mode ∧
    (wordCompleted d s).1.round = s.round ∧
    (wordCompleted d s).1.maxTime = s.maxTime ∧
    (wordCompleted d s).1.roundDuration = s.roundDuration ∧
    (wordCompleted d s).2 =
      [.updateHud (getHUDState (wordCompleted d s).1), .mascotTyping,
       .newWord (wordCompleted d s).1.currentWord] := by
  cases hm : s.mode <;>
    simp [wordCompleted, nextWord, getHUDState, hm, Nat.add_assoc, Nat.mul_comm]

/-- C2. In a playing state, an input whose normalised form equals
`currentWord` makes `validateInput` return `clear`; the combo grows by one,
`score` and `totalScore` grow by `10 + 2 * combo` (the combo before the call),
the new current word is the one `nextWord` selects, and the events are
`update-hud`, `mascot-typing` and `new-word` for that word. -/
theorem exact_match_scores (s : State) (text : Str) (d : Draws)
    (hp : s.isPlaying = true) (hm : cleanText text = s.currentWord) :
    (validateInput text d s).2.2 = some .clear ∧
    (validateInput text d s).1.combo = s.combo + 1 ∧
    (validateInput text d s).1.score = s.score + 10 + 2 * s.combo ∧
    (validateInput text d s).1.totalScore = s.totalScore + 10 + 2 * s.combo ∧
    (validateInput text d s).1.currentWord = (nextWord d s).1.currentWord ∧
    (validateInput text d s).2.1 =
      [.updateHud (getHUDState (validateInput text d s).1), .mascotTyping,
       .newWord (validateInput text d s).1.currentWord] := by
  have h := wordCompleted_fields d s
  obtain ⟨h1, h2, h3, h4, -, -, -, -, -, h10⟩ := h
  have hv : validateInput text d s = ((wordCompleted d s).1, (wordCompleted d s).2, some .clear) := by
    simp [validateInput, hp, hm]
  rw [hv]
  exact ⟨rfl, h1, h2, h3, h4, h10⟩

/-- Witness of C2: typing ` RAG ` at `playingDemo`. -/
theorem exact_match_scores_witness :
    (validateInput " RAG ".toList ⟨0, 0, 0, 0⟩ playingDemo).2.2 = some .clear ∧
    (validateInput " RAG ".toList ⟨0, 0, 0, 0⟩ playingDemo).1.combo = 4 ∧
    (validateInput " RAG ".toList ⟨0, 0, 0, 0⟩ playingDemo).1.score = 58 ∧
    (validateInput " RAG ".toList ⟨0, 0, 0, 0⟩ playingDemo).1.currentWord = "token".toList :=
  have h := exact_match_scores playingDemo " RAG ".toList ⟨0, 0, 0, 0⟩ rfl (by decide)
  ⟨h.1, h.2.1, h.2.2.1, h.2.2.2.2.1.trans (by decide!)⟩

/-- The result of `validateInput` on a playing state when the normalised input
is not the target and the loop reports an error. -/
theorem validateInput_of_error (s : State) (text : Str) (d : Draws)
    (hp : s.isPlaying = true) (hne : cleanText text ≠ s.currentWord)
    (herr : (checkLoop (cleanText text) s.currentWord 0 0).isError = true) :
    validateInput text d s =
      ({ s with currentTime := if s.mode = .zen then s.currentTime else max 0 (s.currentTime - 1),
                combo := 0 },
       [.mascotError] ++
         (if s.combo > 0 then
            [.updateHud (getHUDState
              { s with currentTime := if s.mode = .zen then s.currentTime
                                      else max 0 (s.currentTime - 1),
                       combo := 0 })]
          else []) ++
         [.inputCheck (checkLoop (cleanText text) s.currentWord 0 0).matchLength true
            (checkLoop (cleanText text) s.currentWord 0 0).errorIndex (cleanText text).length],
       some .continue) := by
  rcases Nat.eq_zero_or_pos s.combo with hc | hc
  · cases hm : s.mode <;>
      simp [validateInput, hp, hne, herr, hm, hc] <;> (cases s; simp_all) <;> norm_num
  · have hc' : s.combo ≠ 0 := by omega
    cases hm : s.mode <;>
      simp [validateInput, hp, hne, herr, hm, hc, hc'] <;> norm_num

/-- C3. In a playing state, when the normalised input agrees with
`currentWord` on positions `0 .. i-1` and at position `i` holds a different
character or runs past the end of `currentWord`, `validateInput` leaves the
combo at 0 and emits `mascot-error`, then `update-hud` exactly when the combo
was positive before the call, then `input-check` with `matchLength = i`,
`isError = true` and `errorIndex = i`. -/
theorem mismatch_reports_index (s : State) (text : Str) (d : Draws) (i : Nat)
    (hp : s.isPlaying = true)
    (hagree : (cleanText text).take i = s.currentWord.take i)
    (hlen : i < (cleanText text).length)
    (hdiff : (cleanText text)[i]? ≠ s.currentWord[i]?) :
    (validateInput text d s).1.combo = 0 ∧
    (validateInput text d s).2.1 =
      [.mascotError] ++
        (if s.combo > 0 then [.updateHud (getHUDState (validateInput text d s).1)] else []) ++
        [.inputCheck i true (i : Int) (cleanText text).length] := by
  have hloop := checkLoop_mismatch i (cleanText text) s.currentWord 0 0 hagree hlen hdiff
  have hne : cleanText text ≠ s.currentWord := by
    intro h; rw [h] at hdiff; exact hdiff rfl
  have herr : (checkLoop (cleanText text) s.currentWord 0 0).isError = true := by
    rw [hloop]
  rw [validateInput_of_error s text d hp hne herr, hloop]
  simp

/-- C9. In a playing state, for an input whose normalised form is not a
leading part of `currentWord`, `validateInput` sets `currentTime` to
`max 0 (currentTime - 1)` in normal and chaos mode and leaves it unchanged in
zen mode, keeps `isPlaying` true, emits neither `game-over` nor `game-win`,
and returns `continue`. -/
theorem mismatch_penalty (s : State) (text : Str) (d : Draws)
    (hp : s.isPlaying = true) (hmis : ¬ cleanText text <+: s.currentWord) :
    (validateInput text d s).1.currentTime =
      (if s.mode = .zen then s.currentTime else max 0 (s.currentTime - 1)) ∧
    (validateInput text d s).1.isPlaying = true ∧
    (∀ e ∈ (validateInput text d s).2.1, e.isTerminal = false) ∧
    (validateInput text d s).2.2 = some .continue := by
  have hne : cleanText text ≠ s.currentWord := by
    intro h; rw [h] at hmis; exact hmis (List.prefix_refl _)
  have herr := (checkLoop_isError (cleanText text) s.currentWord 0 0).2 hmis
  rw [validateInput_of_error s text d hp hne herr]
  refine ⟨rfl, hp, ?_, rfl⟩
  intro e he
  by_cases hc : s.combo > 0
  · simp [hc] at he
    rcases he with h | h | h <;> subst h <;> rfl
  · simp [hc] at he
    rcases he with h | h <;> subst h <;> rfl

/-- Witness of C3: typing `rat` against the target `rag` fails at index 2. -/
theorem mismatch_reports_index_witness :
    (validateInput "rat".toList ⟨0, 0, 0, 0⟩ playingDemo).1.combo = 0 ∧
    (validateInput "rat".toList ⟨0, 0, 0, 0⟩ playingDemo).2.1 =
      [.mascotError,
       .updateHud (getHUDState (validateInput "rat".toList ⟨0, 0, 0, 0⟩ playingDemo).1),
       .inputCheck 2 true 2 3] :=
  mismatch_reports_index playingDemo "rat".toList ⟨0, 0, 0, 0⟩ 2 rfl (by decide) (by decide)
    (by decide)

/-- Witness of C9: with half a second left, a wrong key clamps the time to 0
and the game is still playing. -/
theorem mismatch_penalty_witness :
    (validateInput "x".toList ⟨0, 0, 0, 0⟩ playingDemo).1.currentTime = 0 ∧
    (validateInput "x".toList ⟨0, 0, 0, 0⟩ playingDemo).1.isPlaying = true ∧
    (validateInput "x".toList ⟨0, 0, 0, 0⟩ playingDemo).2.2 = some .continue :=
  have h := mismatch_penalty playingDemo "x".toList ⟨0, 0, 0, 0⟩ rfl (by decide)
  ⟨h.1.trans (by decide!), h.2.1, h.2.2.2⟩

/-- `Math.floor(x * n)` is an index below `n` for a draw `x` in `[0, 1)`. -/
theorem floorMul_lt (x : ℚ) (n : Nat) (hx : unitDraw x) (hn : 0 < n) : floorMul x n < n := by
  unfold floorMul
  have hn' : (0 : ℚ) < n := by exact_mod_cast hn
  rw [Nat.floor_lt (mul_nonneg hx.1 hn'.le)]
  calc x * n < 1 * n := by exact mul_lt_mul_of_pos_right hx.2 hn'
    _ = n := one_mul _

/-- `String.fromCharCode(97 + k)` is a lowercase letter for `k < 26`. -/
theorem isLower_ofNat (k : Nat) (hk : k < 26) : (Char.ofNat (97 + k)).isLower = true := by
  interval_cases k <;> decide

/-- `word[i]` within range is the one-character string. -/
theorem charAt_of_lt (word : Str) (i : Nat) (h : i < word.length) :
    charAt word i = [word[i]] := by
  simp [charAt, List.getElem?_eq_getElem h]

/-- C4. For valid draws `u`, `v`: a word shorter than 3 is returned unchanged;
for a word of length at least 3, `corruptWord` returns the word with one
lowercase letter inserted when `r < 0.3`, with one character removed when
`0.3 ≤ r < 0.6`, and with two adjacent characters exchanged when `0.6 ≤ r`.
On the insert and delete paths the result differs from the word, and the
result has the length of the word exactly on the swap path. -/
theorem corruptWord_one_edit (word : Str) (r u v : ℚ) (hu : unitDraw u) (hv : unitDraw v) :
    (word.length < 3 → corruptWord word r u v = word) ∧
    (3 ≤ word.length →
      (r < 0.3 → IsInsertion word (corruptWord word r u v) ∧
        (corruptWord word r u v).length = word.length + 1 ∧ corruptWord word r u v ≠ word) ∧
      (0.3 ≤ r → r < 0.6 → IsDeletion word (corruptWord word r u v) ∧
        (corruptWord word r u v).length + 1 = word.length ∧ corruptWord word r u v ≠ word) ∧
      (0.6 ≤ r → IsAdjacentSwap word (corruptWord word r u v)) ∧
      ((corruptWord word r u v).length = word.length ↔ 0.6 ≤ r)) := by
  constructor
  · intro h; simp [corruptWord, h]
  · intro h3
    have hnot : ¬ word.length < 3 := by omega
    have hins : r < 0.3 → IsInsertion word (corruptWord word r u v) ∧
        (corruptWord word r u v).length = word.length + 1 := by
      intro hr
      have hpos := floorMul_lt v (word.length + 1) hv (by omega)
      have hch := floorMul_lt u 26 hu (by omega)
      simp only [corruptWord, hnot, hr, if_true, if_false]
      refine ⟨⟨floorMul v (word.length + 1), Char.ofNat (97 + floorMul u 26), by omega,
        isLower_ofNat _ hch, by simp⟩, ?_⟩
      simp only [List.length_append, List.length_take, List.length_drop, List.length_cons,
        List.length_nil]
      omega
    have hdel : 0.3 ≤ r → r < 0.6 → IsDeletion word (corruptWord word r u v) ∧
        (corruptWord word r u v).length + 1 = word.length := by
      intro hr1 hr2
      have hr1' : ¬ r < 0.3 := not_lt.mpr hr1
      have hpos := floorMul_lt u word.length hu (by omega)
      simp only [corruptWord, hnot, hr1', hr2, if_true, if_false]
      refine ⟨⟨floorMul u word.length, hpos, rfl⟩, ?_⟩
      simp only [List.length_append, List.length_take, List.length_drop]
      omega
    have hswap : 0.6 ≤ r → IsAdjacentSwap word (corruptWord word r u v) ∧
        (corruptWord word r u v).length = word.length := by
      intro hr
      have hr1 : ¬ r < 0.3 := by
        have : (0.3 : ℚ) < 0.6 := by norm_num
        exact not_lt.mpr (this.le.trans hr)
      have hr2 : ¬ r < 0.6 := not_lt.mpr hr
      have hpos := floorMul_lt u (word.length - 1) hu (by omega)
      have h0 : floorMul u (word.length - 1) < word.length := by omega
      have h1 : floorMul u (word.length - 1) + 1 < word.length := by omega
      simp only [corruptWord, hnot, hr1, hr2, if_false, charAt_of_lt word _ h0,
        charAt_of_lt word _ h1]
      refine ⟨⟨floorMul u (word.length - 1), word[floorMul u (word.length - 1)],
        word[floorMul u (word.length - 1) + 1], List.getElem?_eq_getElem h0,
        List.getElem?_eq_getElem h1, by simp⟩, ?_⟩
      simp only [List.length_append, List.length_take, List.length_drop, List.length_cons,
        List.length_nil]
      omega
    refine ⟨fun hr => ⟨(hins hr).1, (hins hr).2, ?_⟩,
      fun hr1 hr2 => ⟨(hdel hr1 hr2).1, (hdel hr1 hr2).2, ?_⟩, fun hr => (hswap hr).1, ?_⟩
    · intro he
      have := (hins hr).2
      rw [he] at this
      omega
    · intro he
      have := (hdel hr1 hr2).2
      rw [he] at this
      omega
    · constructor
      · intro hl
        by_contra hr
        have hr' : r < 0.6 := not_le.mp hr
        by_cases hr1 : r < 0.3
        · have := (hins hr1).2; omega
        · have := (hdel (not_lt.mp hr1) hr').2; omega
      · intro hr
        exact (hswap hr).2

/-- Witness of C4 on `token` (insert and swap paths) and on the short word `az`. -/
theorem corruptWord_one_edit_witness :
    IsInsertion "token".toList (corruptWord "token".toList 0 0 0) ∧
    corruptWord "token".toList 0 0 0 ≠ "token".toList ∧
    IsAdjacentSwap "token".toList (corruptWord "token".toList (9/10) 0 0) ∧
    corruptWord "az".toList 0 0 0 = "az".toList :=
  have h := corruptWord_one_edit "token".toList 0 0 0 (by decide) (by decide)
  have h2 := corruptWord_one_edit "token".toList (9/10) 0 0 (by decide) (by decide)
  have h3 := corruptWord_one_edit "az".toList 0 0 0 (by decide) (by decide)
  ⟨((h.2 (by decide)).1 (by norm_num)).1, ((h.2 (by decide)).1 (by norm_num)).2.2,
   (h2.2 (by decide)).2.2.1 (by norm_num), h3.1 (by decide)⟩

/-- On the swap path the result can equal the word: exchanging the two `l` of
`pull` gives `pull` back. -/
theorem corruptWord_swap_same_letters :
    corruptWord "pull".toList (6/10) (99/100) 0 = "pull".toList := by decide!

/-- The result of `validateInput` on a playing state when the normalised input
is a proper leading part of the target. -/
theorem validateInput_of_ok (s : State) (text : Str) (d : Draws)
    (hp : s.isPlaying = true) (hne : cleanText text ≠ s.currentWord)
    (hok : (checkLoop (cleanText text) s.currentWord 0 0).isError = false) :
    validateInput text d s =
      (s, [.mascotTyping,
           .inputCheck (checkLoop (cleanText text) s.currentWord 0 0).matchLength false
             (checkLoop (cleanText text) s.currentWord 0 0).errorIndex (cleanText text).length],
       some .continue) := by
  simp [validateInput, hp, hne, hok]

/-- The four ways `validateInput` can end, as the state it leaves. -/
theorem validateInput_state_cases (s : State) (text : Str) (d : Draws) :
    (validateInput text d s).1 = s ∨
    (s.isPlaying = true ∧ (validateInput text d s).1 = (wordCompleted d s).1 ∧
      (validateInput text d s).2.1 = (wordCompleted d s).2) ∨
    (s.isPlaying = true ∧ (validateInput text d s).1 =
      { s with currentTime := if s.mode = .zen then s.currentTime else max 0 (s.currentTime - 1),
               combo := 0 }) := by
  rcases Bool.eq_false_or_eq_true s.isPlaying with hp | hp
  swap
  · left; simp [validateInput, hp]
  · by_cases hm : cleanText text = s.currentWord
    · right; left; simp [validateInput, hp, hm]
    · cases herr : (checkLoop (cleanText text) s.currentWord 0 0).isError
      · left; rw [validateInput_of_ok s text d hp hm herr]
      · right; right; rw [validateInput_of_error s text d hp hm herr]; exact ⟨hp, rfl⟩

/-- The events of `validateInput` are never `game-over` or `game-win`. -/
theorem validateInput_not_terminal (s : State) (text : Str) (d : Draws) :
    ∀ e ∈ (validateInput text d s).2.1, e.isTerminal = false := by
  intro e he
  rcases Bool.eq_false_or_eq_true s.isPlaying with hp | hp
  swap
  · simp [validateInput, hp] at he
  · by_cases hm : cleanText text = s.currentWord
    · have h := (wordCompleted_fields d s).2.2.2.2.2.2.2.2.2
      have hv : (validateInput text d s).2.1 = (wordCompleted d s).2 := by
        simp [validateInput, hp, hm]
      rw [hv, h] at he
      simp at he
      rcases he with h | h | h <;> subst h <;> rfl
    · cases herr : (checkLoop (cleanText text) s.currentWord 0 0).isError
      · rw [validateInput_of_ok s text d hp hm herr] at he
        simp at he
        rcases he with h | h <;> subst h <;> rfl
      · rw [validateInput_of_error s text d hp hm herr] at he
        by_cases hc : s.combo > 0
        · simp [hc] at he
          rcases he with h | h | h <;> subst h <;> rfl
        · simp [hc] at he
          rcases he with h | h <;> subst h <;> rfl

/-- `validateInput` never changes `round`. -/
theorem validateInput_round (s : State) (text : Str) (d : Draws) :
    (validateInput text d s).1.round = s.round := by
  rcases validateInput_state_cases s text d with h | ⟨-, h, -⟩ | ⟨-, h⟩
  · rw [h]
  · rw [h]; exact (wordCompleted_fields d s).2.2.2.2.2.2.1
  · rw [h]

/-- `advanceRound` in the last round: `gameWin`. -/
theorem advanceRound_last (s : State) (h : s.round = totalRounds) :
    (advanceRound s).1.round = s.round ∧ (advanceRound s).1.isPlaying = false ∧
    (advanceRound s).2 = [.gameWin s.score s.totalScore] := by
  simp [advanceRound, h, gameWin]

/-- `advanceRound` before the last round. -/
theorem advanceRound_next (s : State) (h : s.round < totalRounds) :
    (advanceRound s).1.round = s.round + 1 ∧ (advanceRound s).1.isPlaying = s.isPlaying ∧
    (advanceRound s).1.roundDuration = 0 ∧
    (advanceRound s).1.currentTime =
      (if s.mode = .zen then s.currentTime else min s.maxTime (s.currentTime + 10)) ∧
    (advanceRound s).2 =
      [.roundChange (s.round + 1), .updateHud (getHUDState (advanceRound s).1)] := by
  have h' : ¬ s.round ≥ totalRounds := by omega
  cases hm : s.mode <;> simp [advanceRound, h', hm]

/-- `advanceRound` keeps `round` at most `totalRounds` and never lowers it. -/
theorem advanceRound_round_le (s : State) (h : s.round ≤ totalRounds) :
    s.round ≤ (advanceRound s).1.round ∧ (advanceRound s).1.round ≤ totalRounds := by
  rcases Nat.lt_or_ge s.round totalRounds with hlt | hge
  · rw [(advanceRound_next s hlt).1]; omega
  · rw [(advanceRound_last s (by omega)).1]; omega

/-- A tick while not playing does nothing. -/
theorem tick_not_playing (s : State) (hp : s.isPlaying = false) : tick s = (s, []) := by
  simp [tick, hp]

/-- A zen tick only emits `update-timer`. -/
theorem tick_zen (s : State) (hp : s.isPlaying = true) (hm : s.mode = .zen) :
    tick s = (s, [.updateTimer s.currentTime s.maxTime
                    (s.roundDuration / maxRoundDuration * 100)]) := by
  simp [tick, hp, hm]

/-- The tick that drains the time: the decay is subtracted and `gameOver` runs. -/
theorem tick_over (s : State) (hp : s.isPlaying = true) (hm : s.mode ≠ .zen)
    (hz : s.currentTime - tickDecay s ≤ 0) :
    tick s = gameOver { s with currentTime := s.currentTime - tickDecay s } := by
  simp [tick, hp, hm, hz]

/-- A chaos tick that leaves time on the clock. -/
theorem tick_chaos (s : State) (hp : s.isPlaying = true) (hm : s.mode = .chaos)
    (hz : 0 < s.currentTime - tickDecay s) :
    tick s = ({ s with currentTime := s.currentTime - tickDecay s },
              [.updateTimer (s.currentTime - tickDecay s) s.maxTime
                 (s.roundDuration / maxRoundDuration * 100)]) := by
  have hz' : ¬ s.currentTime - tickDecay s ≤ 0 := not_le.mpr hz
  simp [tick, hp, hm, hz']

/-- A normal tick that leaves time on the clock and does not end the round. -/
theorem tick_normal (s : State) (hp : s.isPlaying = true) (hm : s.mode = .normal)
    (hz : 0 < s.currentTime - tickDecay s) (hr : s.roundDuration + 0.1 < maxRoundDuration) :
    tick s = ({ s with currentTime := s.currentTime - tickDecay s,
                       roundDuration := s.roundDuration + 0.1 },
              [.updateTimer (s.currentTime - tickDecay s) s.maxTime
                 ((s.roundDuration + 0.1) / maxRoundDuration * 100)]) := by
  have hz' : ¬ s.currentTime - tickDecay s ≤ 0 := not_le.mpr hz
  have hr' : ¬ maxRoundDuration ≤ s.roundDuration + 0.1 := not_le.mpr hr
  simp [tick, hp, hm, hz', hr']

/-- A normal tick that leaves time on the clock and ends the round. -/
theorem tick_normal_advance (s : State) (hp : s.isPlaying = true) (hm : s.mode = .normal)
    (hz : 0 < s.currentTime - tickDecay s) (hr : maxRoundDuration ≤ s.roundDuration + 0.1) :
    tick s =
      ((advanceRound { s with currentTime := s.currentTime - tickDecay s,
                              roundDuration := s.roundDuration + 0.1 }).1,
       (advanceRound { s with currentTime := s.currentTime - tickDecay s,
                              roundDuration := s.roundDuration + 0.1 }).2 ++
       [.updateTimer
          (advanceRound { s with currentTime := s.currentTime - tickDecay s,
                                 roundDuration := s.roundDuration + 0.1 }).1.currentTime
          (advanceRound { s with currentTime := s.currentTime - tickDecay s,
                                 roundDuration := s.roundDuration + 0.1 }).1.maxTime
          ((advanceRound { s with currentTime := s.currentTime - tickDecay s,
                                  roundDuration := s.roundDuration + 0.1 }).1.roundDuration
              / maxRoundDuration * 100)]) := by
  have hz' : ¬ s.currentTime - tickDecay s ≤ 0 := not_le.mpr hz
  simp [tick, hp, hm, hz', hr]

/-- The ways a tick can end, as the state it leaves. -/
theorem tick_state_cases (s : State) :
    (tick s).1 = s ∨
    (s.isPlaying = true ∧ s.mode ≠ .zen ∧ s.currentTime - tickDecay s ≤ 0 ∧
      tick s = gameOver { s with currentTime := s.currentTime - tickDecay s }) ∨
    (s.isPlaying = true ∧ s.mode = .chaos ∧ 0 < s.currentTime - tickDecay s ∧
      (tick s).1 = { s with currentTime := s.currentTime - tickDecay s }) ∨
    (s.isPlaying = true ∧ s.mode = .normal ∧ 0 < s.currentTime - tickDecay s ∧
      s.roundDuration + 0.1 < maxRoundDuration ∧
      (tick s).1 = { s with currentTime := s.currentTime - tickDecay s,
                            roundDuration := s.roundDuration + 0.1 }) ∨
    (s.isPlaying = true ∧ s.mode = .normal ∧ 0 < s.currentTime - tickDecay s ∧
      maxRoundDuration ≤ s.roundDuration + 0.1 ∧
      (tick s).1 = (advanceRound { s with currentTime := s.currentTime - tickDecay s,
                                          roundDuration := s.roundDuration + 0.1 }).1) := by
  have hmode : s.mode = .normal ∨ s.mode = .zen ∨ s.mode = .chaos := by
    cases s.mode <;> simp
  rcases Bool.eq_false_or_eq_true s.isPlaying with hp | hp
  swap
  · left; rw [tick_not_playing s hp]
  · rcases hmode with hm | hm | hm
    · rcases le_or_lt (s.currentTime - tickDecay s) 0 with hz | hz
      · right; left; exact ⟨hp, by simp [hm], hz, tick_over s hp (by simp [hm]) hz⟩
      · rcases lt_or_le (s.roundDuration + 0.1) maxRoundDuration with hr | hr
        · right; right; right; left
          exact ⟨hp, hm, hz, hr, by rw [tick_normal s hp hm hz hr]⟩
        · right; right; right; right
          exact ⟨hp, hm, hz, hr, by rw [tick_normal_advance s hp hm hz hr]⟩
    · left; rw [tick_zen s hp hm]
    · rcases le_or_lt (s.currentTime - tickDecay s) 0 with hz | hz
      · right; left; exact ⟨hp, by simp [hm], hz, tick_over s hp (by simp [hm]) hz⟩
      · right; right; left; exact ⟨hp, hm, hz, by rw [tick_chaos s hp hm hz]⟩

/-- A tick keeps `round` at most `totalRounds` and never lowers it. -/
theorem tick_round_le (s : State) (h : s.round ≤ totalRounds) :
    s.round ≤ (tick s).1.round ∧ (tick s).1.round ≤ totalRounds := by
  rcases tick_state_cases s with h1 | ⟨-, -, -, h1⟩ | ⟨-, -, -, h1⟩ | ⟨-, -, -, -, h1⟩ |
    ⟨-, -, -, -, h1⟩
  · rw [h1]; exact ⟨le_refl _, h⟩
  · rw [h1]; simpa [gameOver] using h
  · rw [h1]; exact ⟨le_refl _, h⟩
  · rw [h1]; exact ⟨le_refl _, h⟩
  · rw [h1]
    exact advanceRound_round_le { s with currentTime := s.currentTime - tickDecay s,
                                         roundDuration := s.roundDuration + 0.1 } h

/-- `resetGame` sets `round` to 1. -/
theorem resetGame_round (m : Mode) (s : State) : (resetGame m s).1.round = 1 := by
  cases m <;> simp [resetGame]

/-- `startGame` sets `round` to 1 when it is given a mode and keeps it otherwise. -/
theorem startGame_round (m : Option Mode) (d : Draws) (s : State) :
    (startGame m d s).1.round = (match m with | some _ => 1 | none => s.round) := by
  cases m with
  | none => simp [startGame, startTimer, nextWord]
  | some m => simp [startGame, startTimer, nextWord, resetGame_round]

/-- Every operation keeps `1 ≤ round ≤ totalRounds`. -/
theorem step_round_ok (o : Op) (s : State) (h : 1 ≤ s.round ∧ s.round ≤ totalRounds) :
    1 ≤ (step o s).1.round ∧ (step o s).1.round ≤ totalRounds := by
  cases o with
  | reset m => simp [step, resetGame_round, totalRounds]
  | start m d =>
    cases m with
    | none => simpa [step, startGame_round] using h
    | some m => simp [step, startGame_round, totalRounds]
  | hud =>
    show 1 ≤ (hudTimeout s).1.round ∧ (hudTimeout s).1.round ≤ totalRounds
    unfold hudTimeout
    split <;> exact h
  | act a =>
    cases a with
    | tick =>
      have := tick_round_le s h.2
      show 1 ≤ (tick s).1.round ∧ (tick s).1.round ≤ totalRounds
      exact ⟨le_trans h.1 this.1, this.2⟩
    | type text d =>
      simpa [step, act, validateInput_round] using h

/-- Every sequence of operations keeps `1 ≤ round ≤ totalRounds`. -/
theorem run_round_ok (ops : List Op) : ∀ s : State, 1 ≤ s.round ∧ s.round ≤ totalRounds →
    1 ≤ (run ops s).1.round ∧ (run ops s).1.round ≤ totalRounds := by
  induction ops with
  | nil => intro s h; exact h
  | cons o os ih => intro s h; exact ih _ (step_round_ok o s h)

/-- C5. `advanceRound` never produces a round above `totalRounds`: at
`round = totalRounds` it leaves `round` unchanged, sets `isPlaying` to false
and emits `game-win` with the score and total score; below `totalRounds` it
adds one to `round`. After `resetGame`, every sequence of operations
(`resetGame`, `startGame`, the deferred HUD callback, ticks, `validateInput`)
leaves `1 ≤ round ≤ totalRounds`. -/
theorem advanceRound_never_exceeds :
    (∀ s : State, s.round = totalRounds →
      (advanceRound s).1.round = s.round ∧ (advanceRound s).1.isPlaying = false ∧
      (advanceRound s).2 = [.gameWin s.score s.totalScore]) ∧
    (∀ s : State, s.round < totalRounds → (advanceRound s).1.round = s.round + 1) ∧
    (∀ s : State, s.round ≤ totalRounds → (advanceRound s).1.round ≤ totalRounds) ∧
    (∀ (s0 : State) (m : Mode) (ops : List Op),
      1 ≤ (run ops (resetGame m s0).1).1.round ∧
      (run ops (resetGame m s0).1).1.round ≤ totalRounds) :=
  ⟨advanceRound_last, fun s h => (advanceRound_next s h).1,
   fun s h => (advanceRound_round_le s h).2,
   fun s0 m ops => run_round_ok ops _ (by simp [resetGame_round, totalRounds])⟩

/-- Witness of C5: the last round is won and stays 10; round 1 becomes 2. -/
theorem advanceRound_never_exceeds_witness :
    (advanceRound lastRoundDemo).1.round = 10 ∧ (advanceRound lastRoundDemo).1.isPlaying = false ∧
    (advanceRound lastRoundDemo).2 = [.gameWin 42 50] ∧
    (advanceRound playingDemo).1.round = 2 :=
  ⟨(advanceRound_never_exceeds.1 lastRoundDemo rfl).1,
   (advanceRound_never_exceeds.1 lastRoundDemo rfl).2.1,
   (advanceRound_never_exceeds.1 lastRoundDemo rfl).2.2,
   advanceRound_never_exceeds.2.1 playingDemo (by decide)⟩

/-- The heal `wordCompleted` applies to `currentTime`, by mode and round. -/
theorem wordCompleted_currentTime (d : Draws) (s : State) :
    (wordCompleted d s).1.currentTime =
      (match s.mode with
       | .normal => min s.maxTime (s.currentTime +
           (if s.round > 5 then 0.8 else if s.round > 2 then 1.5 else 2))
       | .chaos => min s.maxTime (s.currentTime + 1.5)
       | .zen => s.currentTime) := by
  cases hm : s.mode
  · by_cases h5 : s.round > 5
    · have h2 : s.round > 2 := by omega
      simp [wordCompleted, nextWord, hm, h5, h2]
    · by_cases h2 : s.round > 2 <;> simp [wordCompleted, nextWord, hm, h5, h2]
  · simp [wordCompleted, nextWord, hm]
  · simp [wordCompleted, nextWord, hm]

/-- `startGame('zen')` leaves a running zen game and emits no terminal event. -/
theorem startGame_zen (d : Draws) (s0 : State) :
    ZenRunning (startGame (some .zen) d s0).1 ∧
    ∀ e ∈ (startGame (some .zen) d s0).2, e.isTerminal = false := by
  refine ⟨?_, ?_⟩
  · simp [ZenRunning, startGame, startTimer, nextWord, resetGame]
  · intro e he
    simp [startGame, startTimer, nextWord, resetGame] at he
    rcases he with h | h <;> subst h <;> rfl

/-- A tick or an input keeps a zen game running and emits no terminal event. -/
theorem act_zen (a : Act) (s : State) (h : ZenRunning s) :
    ZenRunning (act a s).1 ∧ ∀ e ∈ (act a s).2, e.isTerminal = false := by
  obtain ⟨hm, hp, ht, hr⟩ := h
  cases a with
  | tick =>
    show ZenRunning (tick s).1 ∧ ∀ e ∈ (tick s).2, e.isTerminal = false
    rw [tick_zen s hp hm]
    refine ⟨⟨hm, hp, ht, hr⟩, ?_⟩
    intro e he
    simp at he
    subst he
    rfl
  | type text d =>
    show ZenRunning (validateInput text d s).1 ∧
      ∀ e ∈ (validateInput text d s).2.1, e.isTerminal = false
    refine ⟨?_, validateInput_not_terminal s text d⟩
    rcases validateInput_state_cases s text d with h | ⟨-, h, -⟩ | ⟨-, h⟩
    · rw [h]; exact ⟨hm, hp, ht, hr⟩
    · rw [h]
      have hf := wordCompleted_fields d s
      refine ⟨hf.2.2.2.2.2.1.trans hm, hf.2.2.2.2.1.trans hp, ?_, hf.2.2.2.2.2.2.1.trans hr⟩
      rw [wordCompleted_currentTime, hm]
      exact ht
    · rw [h]
      exact ⟨hm, hp, by simp [hm, ht], hr⟩

/-- Ticks and inputs keep a zen game running and emit no terminal event. -/
theorem play_zen (acts : List Act) : ∀ s : State, ZenRunning s →
    ZenRunning (play acts s).1 ∧ ∀ e ∈ (play acts s).2, e.isTerminal = false := by
  induction acts with
  | nil => intro s h; exact ⟨h, by simp [play]⟩
  | cons a as ih =>
    intro s h
    have h1 := act_zen a s h
    have h2 := ih _ h1.1
    refine ⟨h2.1, ?_⟩
    intro e he
    simp only [play, List.mem_append] at he
    rcases he with he | he
    · exact h1.2 e he
    · exact h2.2 e he

/-- C7. From `startGame('zen')`, after every finite sequence of ticks and
`validateInput` calls the engine is still playing, `currentTime` is 999 and
`round` is 1, and none of the events emitted since the start is `game-over` or
`game-win`. -/
theorem zen_never_ends (s0 : State) (d : Draws) (acts : List Act) :
    (play acts (startGame (some .zen) d s0).1).1.isPlaying = true ∧
    (play acts (startGame (some .zen) d s0).1).1.currentTime = 999 ∧
    (play acts (startGame (some .zen) d s0).1).1.round = 1 ∧
    ∀ e ∈ (startGame (some .zen) d s0).2 ++ (play acts (startGame (some .zen) d s0).1).2,
      e.isTerminal = false := by
  have h0 := startGame_zen d s0
  have h := play_zen acts _ h0.1
  refine ⟨h.1.2.1, h.1.2.2.1, h.1.2.2.2, ?_⟩
  intro e he
  rcases List.mem_append.mp he with he | he
  · exact h0.2 e he
  · exact h.2 e he

/-- The decay of a tick is positive. -/
theorem tickDecay_pos (s : State) : 0 < tickDecay s := by
  unfold tickDecay
  split
  · split
    · norm_num
    · split <;> norm_num
  · split <;> norm_num

/-- Playing a concatenation is playing its parts in turn. -/
theorem play_append (as bs : List Act) : ∀ s : State,
    play (as ++ bs) s =
      ((play bs (play as s).1).1, (play as s).2 ++ (play bs (play as s).1).2) := by
  induction as with
  | nil => intro s; simp [play]
  | cons a as ih => intro s; simp [play, ih]

/-- `k + 1` ticks are `k` ticks followed by one more. -/
theorem play_ticks_succ (k : Nat) (s : State) :
    play (ticks (k + 1)) s =
      ((tick (play (ticks k) s).1).1, (play (ticks k) s).2 ++ (tick (play (ticks k) s).1).2) := by
  have : ticks (k + 1) = ticks k ++ [Act.tick] := by
    simp [ticks, List.replicate_succ']
  rw [this, play_append]
  simp [play, act]

/-- `k` chaos ticks that leave time on the clock subtract `0.4 * k` and change nothing else. -/
theorem play_ticks_chaos (k : Nat) : ∀ s : State, s.isPlaying = true → s.mode = .chaos →
    0 < s.currentTime - k * 0.4 →
    (play (ticks k) s).1 = { s with currentTime := s.currentTime - k * 0.4 } ∧
    ∀ e ∈ (play (ticks k) s).2, e.isTerminal = false := by
  induction k with
  | zero => intro s _ _ _; simp [ticks, play]
  | succ k ih =>
    intro s hp hm hz
    have hd : tickDecay s = 0.4 := by simp [tickDecay, hm]
    push_cast at hz
    have hk : (0 : ℚ) ≤ k := Nat.cast_nonneg k
    have hz1 : 0 < s.currentTime - tickDecay s := by rw [hd]; nlinarith
    have ht := tick_chaos s hp hm hz1
    have hih := ih { s with currentTime := s.currentTime - tickDecay s } hp hm
      (by simp only [hd]; nlinarith)
    have hplay : play (ticks (k + 1)) s =
        ((play (ticks k) (tick s).1).1, (tick s).2 ++ (play (ticks k) (tick s).1).2) := by
      simp [ticks, List.replicate_succ, play, act]
    rw [hplay, ht]
    refine ⟨?_, ?_⟩
    · rw [hih.1]
      simp only [hd]
      congr 1
      push_cast
      ring
    · intro e he
      rcases List.mem_append.mp he with he | he
      · simp at he; subst he; rfl
      · exact hih.2 e he

/-- The state `startGame('chaos')` leaves. -/
theorem startGame_chaos (d : Draws) (s0 : State) :
    (startGame (some .chaos) d s0).1.isPlaying = true ∧
    (startGame (some .chaos) d s0).1.mode = .chaos ∧
    (startGame (some .chaos) d s0).1.currentTime = 30 ∧
    (startGame (some .chaos) d s0).1.maxTime = 30 ∧
    (startGame (some .chaos) d s0).1.round = 1 ∧
    (startGame (some .chaos) d s0).1.roundDuration = 0 := by
  simp [startGame, startTimer, nextWord, resetGame]

/-- The state `startGame('normal')` leaves. -/
theorem startGame_normal (d : Draws) (s0 : State) :
    (startGame (some .normal) d s0).1.isPlaying = true ∧
    (startGame (some .normal) d s0).1.mode = .normal ∧
    (startGame (some .normal) d s0).1.currentTime = 60 ∧
    (startGame (some .normal) d s0).1.maxTime = 60 ∧
    (startGame (some .normal) d s0).1.round = 1 ∧
    (startGame (some .normal) d s0).1.roundDuration = 0 := by
  simp [startGame, startTimer, nextWord, resetGame]

/-- The chaos drain in exact arithmetic (`tick`, that is `tickWith id`): from a
freshly started chaos game with no input, after each of the first
`k = 1 .. 74` ticks the engine is still playing with
`currentTime = 30 - 0.4 * k > 0` and no terminal event emitted; the 75th tick
leaves `currentTime = 0`, stops the game and emits `game-over`. The source's
doubles do not reach 0 on that tick: see `chaos_needs_76_ticks_in_doubles`. -/
theorem chaos_drains_in_75_ticks (s0 : State) (d : Draws) :
    (∀ k : Nat, 1 ≤ k → k ≤ 74 →
      (play (ticks k) (startGame (some .chaos) d s0).1).1.isPlaying = true ∧
      (play (ticks k) (startGame (some .chaos) d s0).1).1.currentTime = 30 - 0.4 * k ∧
      (0 : ℚ) < 30 - 0.4 * k ∧
      ∀ e ∈ (play (ticks k) (startGame (some .chaos) d s0).1).2, e.isTerminal = false) ∧
    (play (ticks 75) (startGame (some .chaos) d s0).1).1.currentTime = 0 ∧
    (play (ticks 75) (startGame (some .chaos) d s0).1).1.isPlaying = false ∧
    (play (ticks 75) (startGame (some .chaos) d s0).1).2 =
      (play (ticks 74) (startGame (some .chaos) d s0).1).2 ++
        [.gameOver (startGame (some .chaos) d s0).1.score
           (startGame (some .chaos) d s0).1.totalScore] := by
  obtain ⟨hp, hm, ht, -, -, -⟩ := startGame_chaos d s0
  generalize (startGame (some .chaos) d s0).1 = s at hp hm ht
  have alive : ∀ k : Nat, k ≤ 74 → (0 : ℚ) < s.currentTime - k * 0.4 := by
    intro k hk
    have : (k : ℚ) ≤ 74 := by exact_mod_cast hk
    rw [ht]; norm_num; linarith
  refine ⟨?_, ?_⟩
  · intro k _ hk
    have h := play_ticks_chaos k s hp hm (alive k hk)
    rw [h.1]
    refine ⟨hp, ?_, ?_, h.2⟩
    · simp only [ht]; ring
    · have := alive k hk; rw [ht] at this; linarith
  · have h := play_ticks_chaos 74 s hp hm (alive 74 (le_refl _))
    rw [play_ticks_succ 74 s, h.1]
    have hd : tickDecay { s with currentTime := s.currentTime - (74 : ℕ) * 0.4 } = 0.4 := by
      simp [tickDecay, hm]
    have he : s.currentTime - (74 : ℕ) * 0.4 - 0.4 = 0 := by rw [ht]; norm_num
    have hover : tick { s with currentTime := s.currentTime - (74 : ℕ) * 0.4 } =
        gameOver { s with currentTime := 0 } := by
      rw [tick_over { s with currentTime := s.currentTime - (74 : ℕ) * 0.4 } hp (by simp [hm])
        (by rw [hd]; exact he.le), hd]
      simp only [he]
    rw [hover]
    simp [gameOver]

/-- The exact-arithmetic drain instantiated at the constructor's state, at tick
74 and tick 75. -/
theorem chaos_drains_in_75_ticks_witness :
    (play (ticks 74) (startGame (some .chaos) ⟨0, 0, 0, 0⟩ new).1).1.isPlaying = true ∧
    (play (ticks 74) (startGame (some .chaos) ⟨0, 0, 0, 0⟩ new).1).1.currentTime
      = 30 - 0.4 * (74 : ℕ) ∧
    (play (ticks 75) (startGame (some .chaos) ⟨0, 0, 0, 0⟩ new).1).1.isPlaying = false :=
  ⟨((chaos_drains_in_75_ticks new ⟨0, 0, 0, 0⟩).1 74 (by decide) (by decide)).1,
   ((chaos_drains_in_75_ticks new ⟨0, 0, 0, 0⟩).1 74 (by decide) (by decide)).2.1,
   (chaos_drains_in_75_ticks new ⟨0, 0, 0, 0⟩).2.2.1⟩

/-- `k` normal ticks that leave time on the clock and stay inside the round
subtract `k` decays, add `0.1 * k` to `roundDuration` and change nothing else. -/
theorem play_ticks_normal (k : Nat) : ∀ s : State, s.isPlaying = true → s.mode = .normal →
    0 < s.currentTime - k * tickDecay s →
    s.roundDuration + k * 0.1 < maxRoundDuration →
    (play (ticks k) s).1 = { s with currentTime := s.currentTime - k * tickDecay s,
                                    roundDuration := s.roundDuration + k * 0.1 } ∧
    ∀ e ∈ (play (ticks k) s).2, e.isTerminal = false ∧ e.isRoundChange = false := by
  induction k with
  | zero => intro s _ _ _ _; simp [ticks, play]
  | succ k ih =>
    intro s hp hm hz hr
    have hd := tickDecay_pos s
    push_cast at hz hr
    have hk : (0 : ℚ) ≤ k := Nat.cast_nonneg k
    have hz1 : 0 < s.currentTime - tickDecay s := by nlinarith
    have hr1 : s.roundDuration + 0.1 < maxRoundDuration := by
      have : (0 : ℚ) ≤ k * 0.1 := by positivity
      linarith
    have ht := tick_normal s hp hm hz1 hr1
    have hd' : tickDecay { s with currentTime := s.currentTime - tickDecay s,
                                  roundDuration := s.roundDuration + 0.1 } = tickDecay s := by
      simp [tickDecay]
    have hih := ih { s with currentTime := s.currentTime - tickDecay s,
                            roundDuration := s.roundDuration + 0.1 } hp hm
      (by rw [hd']; simp only; linarith) (by simp only; linarith)
    have hplay : play (ticks (k + 1)) s =
        ((play (ticks k) (tick s).1).1, (tick s).2 ++ (play (ticks k) (tick s).1).2) := by
      simp [ticks, List.replicate_succ, play, act]
    rw [hplay, ht]
    refine ⟨?_, ?_⟩
    · rw [hih.1, hd']
      simp only
      congr 1 <;> (push_cast; ring)
    · intro e he
      rcases List.mem_append.mp he with he | he
      · simp at he; subst he; exact ⟨rfl, rfl⟩
      · exact hih.2 e he

/-- A normal tick that ends a round before the last one: the fields it leaves
and the events it emits. -/
theorem tick_normal_advance_fields (s : State) (hp : s.isPlaying = true)
    (hm : s.mode = .normal) (hz : 0 < s.currentTime - tickDecay s)
    (hr : maxRoundDuration ≤ s.roundDuration + 0.1) (hlt : s.round < totalRounds) :
    (tick s).1.round = s.round + 1 ∧ (tick s).1.roundDuration = 0 ∧
    (tick s).1.currentTime = min s.maxTime (s.currentTime - tickDecay s + 10) ∧
    (tick s).1.isPlaying = true ∧ (tick s).1.mode = .normal ∧
    (tick s).1.maxTime = s.maxTime ∧
    ((tick s).2.filter Event.isRoundChange).length = 1 ∧
    ∀ e ∈ (tick s).2, e.isTerminal = false := by
  have hadv := advanceRound_next
    { s with currentTime := s.currentTime - tickDecay s,
             roundDuration := s.roundDuration + 0.1 } hlt
  obtain ⟨h1, h2, h3, h4, h5⟩ := hadv
  have hmax : (advanceRound { s with currentTime := s.currentTime - tickDecay s,
                                     roundDuration := s.roundDuration + 0.1 }).1.maxTime
      = s.maxTime := by
    have h' : ¬ s.round ≥ totalRounds := by omega
    simp [advanceRound, h', hm]
  have hmode : (advanceRound { s with currentTime := s.currentTime - tickDecay s,
                                      roundDuration := s.roundDuration + 0.1 }).1.mode
      = s.mode := by
    have h' : ¬ s.round ≥ totalRounds := by omega
    simp [advanceRound, h', hm]
  rw [tick_normal_advance s hp hm hz hr]
  refine ⟨h1, h3, ?_, h2.trans hp, hmode.trans hm, hmax, ?_, ?_⟩
  · rw [h4]; simp [hm]
  · rw [h5]; simp [List.filter, Event.isRoundChange]
  · intro e he
    rw [h5] at he
    simp at he
    rcases he with h | h | h <;> subst h <;> rfl

/-- C6. From a freshly started normal game with no input, `round` is 1 after
each of the first 199 ticks; after the 200th tick `round = 2`,
`roundDuration = 0` and `currentTime = min 60 ((60 - 200 * 0.1) + 10) = 50`,
and exactly one `round-change` event was emitted. -/
theorem normal_200_ticks (s0 : State) (d : Draws) :
    (∀ k : Nat, k ≤ 199 → (play (ticks k) (startGame (some .normal) d s0).1).1.round = 1) ∧
    (play (ticks 200) (startGame (some .normal) d s0).1).1.round = 2 ∧
    (play (ticks 200) (startGame (some .normal) d s0).1).1.roundDuration = 0 ∧
    (play (ticks 200) (startGame (some .normal) d s0).1).1.currentTime
      = min 60 ((60 - 200 * 0.1) + 10) ∧
    (play (ticks 200) (startGame (some .normal) d s0).1).1.currentTime = 50 ∧
    ((play (ticks 200) (startGame (some .normal) d s0).1).2.filter Event.isRoundChange).length
      = 1 := by
  obtain ⟨hp, hm, ht, hmax, hround, hrd⟩ := startGame_normal d s0
  generalize (startGame (some .normal) d s0).1 = s at hp hm ht hmax hround hrd
  have hd : tickDecay s = 0.1 := by simp [tickDecay, hm, hround]
  have alive : ∀ k : Nat, k ≤ 199 →
      (0 : ℚ) < s.currentTime - k * tickDecay s ∧
      s.roundDuration + k * 0.1 < maxRoundDuration := by
    intro k hk
    have : (k : ℚ) ≤ 199 := by exact_mod_cast hk
    rw [ht, hd, hrd, maxRoundDuration]
    constructor <;> norm_num <;> linarith
  have h199 := play_ticks_normal 199 s hp hm (alive 199 (le_refl _)).1
    (alive 199 (le_refl _)).2
  obtain ⟨hst, hev⟩ := h199
  have gp : (play (ticks 199) s).1.isPlaying = true := by rw [hst]; exact hp
  have gm : (play (ticks 199) s).1.mode = .normal := by rw [hst]; exact hm
  have gr : (play (ticks 199) s).1.round = 1 := by rw [hst]; exact hround
  have gmax : (play (ticks 199) s).1.maxTime = 60 := by rw [hst]; exact hmax
  have gt : (play (ticks 199) s).1.currentTime = 60 - 199 * 0.1 := by
    rw [hst]; simp only [ht, hd]; norm_num
  have grd : (play (ticks 199) s).1.roundDuration = 199 * 0.1 := by
    rw [hst]; simp only [hrd]; norm_num
  have gd : tickDecay (play (ticks 199) s).1 = 0.1 := by simp [tickDecay, gm, gr]
  have hlast := tick_normal_advance_fields (play (ticks 199) s).1 gp gm
    (by rw [gt, gd]; norm_num) (by rw [grd, maxRoundDuration]; norm_num)
    (by rw [gr]; decide)
  obtain ⟨l1, l2, l3, -, -, -, l7, -⟩ := hlast
  refine ⟨?_, ?_⟩
  · intro k hk
    rw [(play_ticks_normal k s hp hm (alive k hk).1 (alive k hk).2).1]
    exact hround
  · rw [play_ticks_succ 199 s]
    generalize play (ticks 199) s = q at hev gr gmax gt gd l1 l2 l3 l7
    dsimp only
    have hnone : q.2.filter Event.isRoundChange = [] := by
      rw [List.filter_eq_nil_iff]
      intro e he
      simp [(hev e he).2]
    refine ⟨by rw [l1, gr], l2, ?_, ?_, ?_⟩
    · rw [l3, gmax, gt, gd]; norm_num
    · rw [l3, gmax, gt, gd]; norm_num
    · simp only [List.filter_append, hnone, List.nil_append]
      exact l7

/-- The decay of a tick is at most 0.4. -/
theorem tickDecay_le (s : State) : tickDecay s ≤ 2 / 5 := by
  unfold tickDecay
  split
  · split
    · norm_num
    · split <;> norm_num
  · split <;> norm_num

/-- `advanceRound` in normal mode before the last round heals by 10, clamped to `maxTime`. -/
theorem advanceRound_normal (s : State) (hm : s.mode = .normal) (hlt : s.round < totalRounds) :
    (advanceRound s).1.currentTime = min s.maxTime (s.currentTime + 10) ∧
    (advanceRound s).1.maxTime = s.maxTime ∧
    (advanceRound s).1.isPlaying = s.isPlaying := by
  have h' : ¬ s.round ≥ totalRounds := by omega
  simp [advanceRound, h', hm]

/-- A tick keeps the bounds `TimeOk`. -/
theorem tick_timeOk (s : State) (h : TimeOk s) : TimeOk (tick s).1 := by
  obtain ⟨hmax, hpos, hlow⟩ := h
  have hd := tickDecay_pos s
  have hd4 := tickDecay_le s
  rcases tick_state_cases s with h1 | ⟨hp, -, -, h1⟩ | ⟨hp, -, hz, h1⟩ | ⟨hp, -, hz, -, h1⟩ |
    ⟨hp, hm, hz, -, h1⟩
  · rw [h1]; exact ⟨hmax, hpos, hlow⟩
  · have h0 := hpos hp
    rw [h1]
    refine ⟨?_, ?_, ?_⟩
    · simp only [gameOver, clearInterval_currentTime, clearInterval_maxTime]; linarith
    · intro hc; simp [gameOver] at hc
    · simp only [gameOver, clearInterval_currentTime]; linarith
  · rw [h1]; exact ⟨by simp only; linarith, fun _ => hz.le, by simp only; linarith⟩
  · rw [h1]; exact ⟨by simp only; linarith, fun _ => hz.le, by simp only; linarith⟩
  · rw [h1]
    have h0 := hpos hp
    rcases Nat.lt_or_ge s.round totalRounds with hlt | hge
    · have hadv := advanceRound_normal
        { s with currentTime := s.currentTime - tickDecay s,
                 roundDuration := s.roundDuration + 0.1 } hm hlt
      obtain ⟨hct, hmx, -⟩ := hadv
      have hge0 : 0 ≤ min s.maxTime (s.currentTime - tickDecay s + 10) :=
        le_min (by linarith) (by linarith)
      refine ⟨?_, ?_, ?_⟩
      · rw [hct, hmx]; exact min_le_left _ _
      · intro _; rw [hct]; exact hge0
      · rw [hct]; linarith
    · have hw : advanceRound { s with currentTime := s.currentTime - tickDecay s,
                                      roundDuration := s.roundDuration + 0.1 } =
          gameWin { s with currentTime := s.currentTime - tickDecay s,
                           roundDuration := s.roundDuration + 0.1 } := by
        simp [advanceRound, hge]
      rw [hw]
      refine ⟨?_, ?_, ?_⟩
      · simp only [gameWin, clearInterval_currentTime, clearInterval_maxTime]; linarith
      · intro hc; simp [gameWin] at hc
      · simp only [gameWin, clearInterval_currentTime]; linarith

/-- `validateInput` keeps the bounds `TimeOk`. -/
theorem validateInput_timeOk (s : State) (text : Str) (d : Draws) (h : TimeOk s) :
    TimeOk (validateInput text d s).1 := by
  obtain ⟨hmax, hpos, hlow⟩ := h
  rcases validateInput_state_cases s text d with h1 | ⟨hp, h1, -⟩ | ⟨hp, h1⟩
  · rw [h1]; exact ⟨hmax, hpos, hlow⟩
  · rw [h1]
    have h0 := hpos hp
    have hf := wordCompleted_fields d s
    have hmx := hf.2.2.2.2.2.2.2.1
    have hct := wordCompleted_currentTime d s
    have key : (wordCompleted d s).1.currentTime ≤ s.maxTime ∧
        0 ≤ (wordCompleted d s).1.currentTime := by
      rw [hct]
      cases hm : s.mode
      · simp only
        refine ⟨min_le_left _ _, le_min (by linarith) ?_⟩
        split
        · linarith
        · split <;> linarith
      · exact ⟨hmax, h0⟩
      · simp only
        exact ⟨min_le_left _ _, le_min (by linarith) (by linarith)⟩
    exact ⟨by rw [hmx]; exact key.1, fun _ => key.2, by linarith [key.2]⟩
  · rw [h1]
    have h0 := hpos hp
    by_cases hm : s.mode = .zen
    · simp only [hm, if_true]; exact ⟨hmax, fun _ => h0, hlow⟩
    · simp only [hm, if_false]
      refine ⟨max_le (by linarith) (by linarith), fun _ => le_max_left _ _, ?_⟩
      have : (0 : ℚ) ≤ max 0 (s.currentTime - 1) := le_max_left _ _
      linarith

/-- `startGame(mode)` establishes the bounds `TimeOk`. -/
theorem startGame_timeOk (m : Mode) (d : Draws) (s0 : State) :
    TimeOk (startGame (some m) d s0).1 := by
  cases m <;> simp [TimeOk, startGame, startTimer, nextWord, resetGame] <;> norm_num

/-- What the code does keep of the clamping invariant: from `startGame(mode)`,
after every sequence of ticks and inputs, `currentTime ≤ maxTime`,
`0 ≤ currentTime` while the game is playing, and `-0.4 ≤ currentTime`. -/
theorem currentTime_bounds (m : Mode) (d : Draws) (s0 : State) (acts : List Act) :
    TimeOk (play acts (startGame (some m) d s0).1).1 := by
  have h0 := startGame_timeOk m d s0
  generalize (startGame (some m) d s0).1 = s at h0
  induction acts generalizing s with
  | nil => exact h0
  | cons a as ih =>
    cases a with
    | tick => exact ih _ (tick_timeOk s h0)
    | type text dr => exact ih _ (validateInput_timeOk s text dr h0)

/-- C1, at the failing input. An unattended normal game (`startGame('normal')`
from the constructor's state, then ticks only): after 733 ticks the game is
playing with `currentTime = 0.05`; the 734th tick ends the game and leaves
`currentTime = -0.1`, below 0: the tick subtracts the decay and calls
`gameOver` without clamping. -/
theorem unattended_normal_game_ends_below_zero :
    (play (ticks 733) (startGame (some .normal) ⟨0, 0, 0, 0⟩ new).1).1.isPlaying = true ∧
    (play (ticks 733) (startGame (some .normal) ⟨0, 0, 0, 0⟩ new).1).1.currentTime = 1 / 20 ∧
    (play (ticks 734) (startGame (some .normal) ⟨0, 0, 0, 0⟩ new).1).1.isPlaying = false ∧
    (play (ticks 734) (startGame (some .normal) ⟨0, 0, 0, 0⟩ new).1).1.currentTime = -1 / 10 ∧
    (play (ticks 734) (startGame (some .normal) ⟨0, 0, 0, 0⟩ new).1).1.currentTime < 0 := by
  decide!

/-- Outside chaos mode, a valid draw selects an entry of the word list: the
default of the lookup is never used. -/
theorem pickWord_mem_words (mode : Mode) (d : Draws) (hd : d.Valid) (hm : mode ≠ .chaos) :
    pickWord mode d ∈ words := by
  have hlt := floorMul_lt d.w words.length hd.1 (by decide)
  simp only [pickWord, hm, if_false]
  rw [List.getD_eq_getElem _ _ hlt]
  exact List.getElem_mem _

/-- Witness of C6 from the constructor's state, at tick 199 and tick 200. -/
theorem normal_200_ticks_witness :
    (play (ticks 199) (startGame (some .normal) ⟨0, 0, 0, 0⟩ new).1).1.round = 1 ∧
    (play (ticks 200) (startGame (some .normal) ⟨0, 0, 0, 0⟩ new).1).1.round = 2 ∧
    (play (ticks 200) (startGame (some .normal) ⟨0, 0, 0, 0⟩ new).1).1.currentTime = 50 :=
  ⟨(normal_200_ticks new ⟨0, 0, 0, 0⟩).1 199 (by decide),
   (normal_200_ticks new ⟨0, 0, 0, 0⟩).2.1,
   (normal_200_ticks new ⟨0, 0, 0, 0⟩).2.2.2.2.1⟩

/-- Witness of C7: a zen game after a tick, a wrong key and another tick; the
`game-start` event it emitted is not terminal. -/
theorem zen_never_ends_witness :
    (play [.tick, .type "x".toList ⟨0, 0, 0, 0⟩, .tick]
      (startGame (some .zen) ⟨0, 0, 0, 0⟩ new).1).1.isPlaying = true ∧
    (play [.tick, .type "x".toList ⟨0, 0, 0, 0⟩, .tick]
      (startGame (some .zen) ⟨0, 0, 0, 0⟩ new).1).1.currentTime = 999 ∧
    (Event.gameStart .zen).isTerminal = false :=
  ⟨(zen_never_ends new ⟨0, 0, 0, 0⟩ [.tick, .type "x".toList ⟨0, 0, 0, 0⟩, .tick]).1,
   (zen_never_ends new ⟨0, 0, 0, 0⟩ [.tick, .type "x".toList ⟨0, 0, 0, 0⟩, .tick]).2.1,
   (zen_never_ends new ⟨0, 0, 0, 0⟩ [.tick, .type "x".toList ⟨0, 0, 0, 0⟩, .tick]).2.2.2
     (.gameStart .zen) (by decide!)⟩

/-- The loop accepts every leading part of the target: it counts all its
characters and reports no error. -/
theorem checkLoop_of_leading_part (inp : Str) : ∀ (t : Str) (j m : Nat), inp <+: t →
    checkLoop inp t j m = ⟨m + inp.length, false, -1⟩ := by
  induction inp with
  | nil => intro t j m _; simp [checkLoop]
  | cons x xs ih =>
    intro t j m h
    cases t with
    | nil => simp at h
    | cons y ts =>
      rw [List.cons_prefix_cons] at h
      obtain ⟨hxy, hrest⟩ := h
      simp only [checkLoop, hxy, if_true, ih ts (j + 1) (m + 1) hrest, List.length_cons]
      congr 1
      omega

/-- C11. In a playing state, completing a word (an input whose normalised form
equals `currentWord`) sets `currentTime` to `min maxTime (currentTime + h)`
with `h = 2` for `round ≤ 2`, `h = 1.5` for `3 ≤ round ≤ 5` and `h = 0.8` for
`round > 5` in normal mode, `h = 1.5` in chaos mode, and leaves `currentTime`
unchanged in zen mode. -/
theorem heal_on_success (s : State) (text : Str) (d : Draws)
    (hp : s.isPlaying = true) (hm : cleanText text = s.currentWord) :
    (s.mode = .normal → s.round ≤ 2 →
      (validateInput text d s).1.currentTime = min s.maxTime (s.currentTime + 2)) ∧
    (s.mode = .normal → 3 ≤ s.round → s.round ≤ 5 →
      (validateInput text d s).1.currentTime = min s.maxTime (s.currentTime + 1.5)) ∧
    (s.mode = .normal → 5 < s.round →
      (validateInput text d s).1.currentTime = min s.maxTime (s.currentTime + 0.8)) ∧
    (s.mode = .chaos →
      (validateInput text d s).1.currentTime = min s.maxTime (s.currentTime + 1.5)) ∧
    (s.mode = .zen → (validateInput text d s).1.currentTime = s.currentTime) := by
  have hv : (validateInput text d s).1 = (wordCompleted d s).1 := by
    simp [validateInput, hp, hm]
  rw [hv, wordCompleted_currentTime]
  refine ⟨?_, ?_, ?_, ?_, ?_⟩
  · intro h1 h2
    have a : ¬ s.round > 5 := by omega
    have b : ¬ s.round > 2 := by omega
    simp [h1, a, b]
  · intro h1 h2 h3
    have a : ¬ s.round > 5 := by omega
    have b : s.round > 2 := by omega
    simp [h1, a, b]
  · intro h1 h2
    simp [h1, h2]
  · intro h1; simp [h1]
  · intro h1; simp [h1]

/-- Witness of C11: at `playingDemo` (normal mode, round 1, half a second
left) completing `rag` heals to 2.5 seconds. -/
theorem heal_on_success_witness :
    (validateInput "rag".toList ⟨0, 0, 0, 0⟩ playingDemo).1.currentTime = 5 / 2 :=
  ((heal_on_success playingDemo "rag".toList ⟨0, 0, 0, 0⟩ rfl (by decide)).1 rfl
    (by decide)).trans (by decide!)

/-- C13. For every prior state and every mode, `resetGame(mode)` sets `mode`
as given, `score = 0`, `combo = 0`, `round = 1`, `roundDuration = 0`,
`isPlaying = false` and `maxTime = currentTime = 60` (normal), `30` (chaos)
or `999` (zen); it leaves `totalScore` unchanged and emits nothing itself. -/
theorem resetGame_fields (s : State) (mode : Mode) :
    (resetGame mode s).1.mode = mode ∧
    (resetGame mode s).1.score = 0 ∧
    (resetGame mode s).1.combo = 0 ∧
    (resetGame mode s).1.round = 1 ∧
    (resetGame mode s).1.roundDuration = 0 ∧
    (resetGame mode s).1.isPlaying = false ∧
    (resetGame mode s).1.maxTime =
      (match mode with | .normal => 60 | .chaos => 30 | .zen => 999) ∧
    (resetGame mode s).1.currentTime = (resetGame mode s).1.maxTime ∧
    (resetGame mode s).1.totalScore = s.totalScore ∧
    (resetGame mode s).2 = [] := by
  cases mode <;> simp [resetGame]

/-- C16. In a playing state in normal or chaos mode where `currentTime` minus
the tick's decay is at most 0, the tick sets `isPlaying` to false, emits
exactly one event, `game-over` with the current score and total score (so no
`update-timer`), and leaves `score`, `totalScore`, `combo`, `round` and
`roundDuration` unchanged. -/
theorem game_over_tick (s : State) (hp : s.isPlaying = true) (hm : s.mode ≠ .zen)
    (hz : s.currentTime - tickDecay s ≤ 0) :
    (tick s).1.isPlaying = false ∧
    (tick s).2 = [.gameOver s.score s.totalScore] ∧
    (tick s).1.score = s.score ∧
    (tick s).1.totalScore = s.totalScore ∧
    (tick s).1.combo = s.combo ∧
    (tick s).1.round = s.round ∧
    (tick s).1.roundDuration = s.roundDuration := by
  rw [tick_over s hp hm hz]
  simp [gameOver]

/-- Witness of C16: at `playingDemo` with a tenth of a second left the tick
ends the game. -/
theorem game_over_tick_witness :
    (tick { playingDemo with currentTime := 1 / 10 }).1.isPlaying = false ∧
    (tick { playingDemo with currentTime := 1 / 10 }).2 = [.gameOver 42 50] :=
  have h := game_over_tick { playingDemo with currentTime := 1 / 10 } rfl (by decide)
    (by decide!)
  ⟨h.1, h.2.1⟩

/-- C17. In a playing state, for an input whose normalised form is a proper
leading part of `currentWord` (the empty string included), `validateInput`
leaves the whole state unchanged, emits `mascot-typing` then `input-check`
with `isError = false`, `errorIndex = -1` and `matchLength = inputLength` the
length of the normalised input, and returns `continue`. -/
theorem valid_partial_input (s : State) (text : Str) (d : Draws)
    (hp : s.isPlaying = true) (hpre : cleanText text <+: s.currentWord)
    (hne : cleanText text ≠ s.currentWord) :
    validateInput text d s =
      (s, [.mascotTyping,
           .inputCheck (cleanText text).length false (-1) (cleanText text).length],
       some .continue) := by
  have hloop := checkLoop_of_leading_part (cleanText text) s.currentWord 0 0 hpre
  have hok : (checkLoop (cleanText text) s.currentWord 0 0).isError = false := by
    rw [hloop]
  rw [validateInput_of_ok s text d hp hne hok, hloop]
  simp

/-- Witness of C17: typing `ra` and typing nothing against the target `rag`. -/
theorem valid_partial_input_witness :
    validateInput "ra".toList ⟨0, 0, 0, 0⟩ playingDemo =
      (playingDemo, [.mascotTyping, .inputCheck 2 false (-1) 2], some .continue) ∧
    validateInput [] ⟨0, 0, 0, 0⟩ playingDemo =
      (playingDemo, [.mascotTyping, .inputCheck 0 false (-1) 0], some .continue) :=
  ⟨valid_partial_input playingDemo "ra".toList ⟨0, 0, 0, 0⟩ rfl (by decide) (by decide),
   valid_partial_input playingDemo [] ⟨0, 0, 0, 0⟩ rfl (by decide) (by decide)⟩

/-- The fields `advanceRound` never writes. -/
theorem advanceRound_frame (s : State) :
    (advanceRound s).1.score = s.score ∧ (advanceRound s).1.totalScore = s.totalScore ∧
    (advanceRound s).1.combo = s.combo ∧ (advanceRound s).1.mode = s.mode ∧
    (advanceRound s).1.maxTime = s.maxTime ∧ (advanceRound s).1.currentWord = s.currentWord ∧
    (advanceRound s).1.timer = s.timer ∧ (advanceRound s).1.nextHandle = s.nextHandle ∧
    (advanceRound s).1.pendingHud = s.pendingHud := by
  by_cases h : s.round ≥ totalRounds
  · simp [advanceRound, h, gameWin]
  · by_cases hz : s.mode = .zen <;> simp [advanceRound, h, hz]

/-- The fields the tick callback never writes. -/
theorem tick_frame (s : State) :
    (tick s).1.score = s.score ∧ (tick s).1.totalScore = s.totalScore ∧
    (tick s).1.combo = s.combo ∧ (tick s).1.mode = s.mode ∧
    (tick s).1.maxTime = s.maxTime ∧ (tick s).1.currentWord = s.currentWord ∧
    (tick s).1.timer = s.timer ∧ (tick s).1.nextHandle = s.nextHandle ∧
    (tick s).1.pendingHud = s.pendingHud := by
  rcases tick_state_cases s with h1 | ⟨-, -, -, h1⟩ | ⟨-, -, -, h1⟩ | ⟨-, -, -, -, h1⟩ |
    ⟨-, -, -, -, h1⟩
  · rw [h1]; simp
  · rw [h1]; simp [gameOver]
  · rw [h1]; simp
  · rw [h1]; simp
  · rw [h1]
    exact advanceRound_frame { s with currentTime := s.currentTime - tickDecay s,
                                      roundDuration := s.roundDuration + 0.1 }

/-- The host fields `wordCompleted` never writes. -/
theorem wordCompleted_host (d : Draws) (s : State) :
    (wordCompleted d s).1.timer = s.timer ∧
    (wordCompleted d s).1.activeIntervals = s.activeIntervals ∧
    (wordCompleted d s).1.nextHandle = s.nextHandle ∧
    (wordCompleted d s).1.pendingHud = s.pendingHud := by
  cases hm : s.mode <;> simp [wordCompleted, nextWord, hm]

/-- `validateInput` keeps `score ≤ totalScore`. -/
theorem validateInput_score_le (s : State) (text : Str) (d : Draws)
    (h : s.score ≤ s.totalScore) :
    (validateInput text d s).1.score ≤ (validateInput text d s).1.totalScore := by
  rcases validateInput_state_cases s text d with h1 | ⟨-, h1, -⟩ | ⟨-, h1⟩
  · rw [h1]; exact h
  · rw [h1]
    have hf := wordCompleted_fields d s
    rw [hf.2.1, hf.2.2.1]
    omega
  · rw [h1]; exact h

/-- Every operation keeps `score ≤ totalScore`. -/
theorem step_score_le (o : Op) (s : State) (h : s.score ≤ s.totalScore) :
    (step o s).1.score ≤ (step o s).1.totalScore := by
  cases o with
  | reset m =>
    show (resetGame m s).1.score ≤ (resetGame m s).1.totalScore
    cases m <;> simp [resetGame]
  | start m d =>
    show (startGame m d s).1.score ≤ (startGame m d s).1.totalScore
    cases m with
    | none => simpa [startGame, startTimer, nextWord] using h
    | some m => cases m <;> simp [startGame, startTimer, nextWord, resetGame]
  | hud =>
    show (hudTimeout s).1.score ≤ (hudTimeout s).1.totalScore
    unfold hudTimeout
    split <;> exact h
  | act a =>
    cases a with
    | tick =>
      show (tick s).1.score ≤ (tick s).1.totalScore
      rw [(tick_frame s).1, (tick_frame s).2.1]
      exact h
    | type text d => exact validateInput_score_le s text d h

/-- C18. `score ≤ totalScore` holds in every state reached from the
constructor's state by any sequence of `resetGame`, `startGame`, the deferred
HUD callback, ticks and `validateInput` calls. -/
theorem score_le_totalScore (ops : List Op) :
    (run ops new).1.score ≤ (run ops new).1.totalScore := by
  have h0 : new.score ≤ new.totalScore := by decide
  generalize new = s at h0
  induction ops generalizing s with
  | nil => exact h0
  | cons o os ih => exact ih _ (step_score_le o s h0)

/-- Cancelling the stored handle leaves nothing scheduled when every scheduled
interval is that handle. -/
theorem clearInterval_stored (t : Option Nat) (s : State)
    (h : ∀ k ∈ s.activeIntervals, t = some k) :
    (clearInterval t s).activeIntervals = [] := by
  cases t with
  | none =>
    cases hl : s.activeIntervals with
    | nil => simp [clearInterval, hl]
    | cons k ks => have := h k (by simp [hl]); simp at this
  | some n =>
    simp only [clearInterval, List.filter_eq_nil_iff]
    intro k hk
    have := h k hk
    simp only [Option.some.injEq] at this
    simp [this]

/-- The guarded cancel of `resetGame` and `startTimer` leaves nothing scheduled
when every scheduled interval is the stored non-zero handle. -/
theorem clearTimerIfSet_stored (s : State)
    (h : ∀ k ∈ s.activeIntervals, k ≠ 0 ∧ s.timer = some k) :
    (clearTimerIfSet s).activeIntervals = [] := by
  unfold clearTimerIfSet
  cases ht : s.timer with
  | none =>
    cases hl : s.activeIntervals with
    | nil => simp [hl]
    | cons k ks => have := (h k (by simp [hl])).2; rw [ht] at this; simp at this
  | some n =>
    by_cases hn : n = 0
    · cases hl : s.activeIntervals with
      | nil => simp [hn, hl]
      | cons k ks =>
        have := h k (by simp [hl])
        rw [ht] at this
        simp only [Option.some.injEq] at this
        exact absurd (this.2.symm.trans hn) this.1
    · simp only [hn, ne_eq, not_false_eq_true, if_true]
      exact clearInterval_stored (some n) s (fun k hk => by rw [← ht]; exact (h k hk).2)

/-- `resetGame` keeps the timer discipline. -/
theorem resetGame_timerOk (m : Mode) (s : State) (h : TimerOk s) :
    TimerOk (resetGame m s).1 ∧ (resetGame m s).1.activeIntervals = [] := by
  obtain ⟨h1, -, h3⟩ := h
  have key : ∀ s' : State, s'.timer = s.timer → s'.activeIntervals = s.activeIntervals →
      (clearTimerIfSet s').activeIntervals = [] := by
    intro s' e1 e2
    exact clearTimerIfSet_stored s' (by rw [e1, e2]; exact h1)
  have hact : (resetGame m s).1.activeIntervals = [] := by
    cases m <;> simp only [resetGame] <;> exact key _ rfl rfl
  refine ⟨⟨?_, ?_, ?_⟩, hact⟩
  · rw [hact]; simp
  · rw [hact]; cases m <;> simp [resetGame]
  · cases m <;> simpa [resetGame] using h3

/-- `startTimer` leaves exactly the fresh handle scheduled and stores it. -/
theorem startTimer_fresh (s : State)
    (a : ∀ k ∈ s.activeIntervals, k ≠ 0 ∧ s.timer = some k) :
    (startTimer s).activeIntervals = [s.nextHandle] ∧
    (startTimer s).timer = some s.nextHandle ∧
    (startTimer s).nextHandle = s.nextHandle + 1 ∧
    (startTimer s).isPlaying = s.isPlaying := by
  simp [startTimer, clearTimerIfSet_stored s a]

/-- `startGame` keeps the timer discipline. -/
theorem startGame_timerOk (m : Option Mode) (d : Draws) (s : State) (h : TimerOk s) :
    TimerOk (startGame m d s).1 := by
  have hpre : ∀ s1 : State, TimerOk s1 →
      TimerOk (startTimer (nextWord d { s1 with isPlaying := true }).1) := by
    intro s1 h1
    obtain ⟨a, -, c⟩ := h1
    have hf := startTimer_fresh (nextWord d { s1 with isPlaying := true }).1 a
    obtain ⟨f1, f2, f3, f4⟩ := hf
    have hn : (nextWord d { s1 with isPlaying := true }).1.nextHandle = s1.nextHandle := rfl
    have hp : (nextWord d { s1 with isPlaying := true }).1.isPlaying = true := rfl
    refine ⟨?_, ?_, ?_⟩
    · intro k hk
      rw [f1, List.mem_singleton] at hk
      subst hk
      rw [f2, hn]
      exact ⟨by omega, rfl⟩
    · rw [f1, f4, hp]; simp
    · rw [f3]; omega
  cases m with
  | none => exact hpre s h
  | some m => exact hpre _ (resetGame_timerOk m s h).1

/-- `gameOver` and `gameWin` cancel the only scheduled interval. -/
theorem terminal_timerOk (s : State) (h : TimerOk s) :
    TimerOk (gameOver s).1 ∧ TimerOk (gameWin s).1 := by
  obtain ⟨a, -, c⟩ := h
  have e1 : (gameOver s).1.activeIntervals = [] := by
    simp only [gameOver]
    exact clearInterval_stored _ _ (fun k hk => (a k hk).2)
  have e2 : (gameWin s).1.activeIntervals = [] := by
    simp only [gameWin]
    exact clearInterval_stored _ _ (fun k hk => (a k hk).2)
  refine ⟨⟨?_, ?_, ?_⟩, ⟨?_, ?_, ?_⟩⟩
  · rw [e1]; simp
  · rw [e1]; simp [gameOver]
  · simpa [gameOver] using c
  · rw [e2]; simp
  · rw [e2]; simp [gameWin]
  · simpa [gameWin] using c

/-- The timer discipline does not depend on the clock fields. -/
theorem timerOk_congr (s s' : State) (h : TimerOk s)
    (e1 : s'.activeIntervals = s.activeIntervals) (e2 : s'.timer = s.timer)
    (e3 : s'.isPlaying = s.isPlaying) (e4 : s'.nextHandle = s.nextHandle) : TimerOk s' := by
  unfold TimerOk
  rw [e1, e2, e3, e4]
  exact h

/-- `advanceRound` keeps the timer discipline. -/
theorem advanceRound_timerOk (s : State) (h : TimerOk s) : TimerOk (advanceRound s).1 := by
  by_cases hr : s.round ≥ totalRounds
  · have : advanceRound s = gameWin s := by simp [advanceRound, hr]
    rw [this]
    exact (terminal_timerOk s h).2
  · apply timerOk_congr s _ h <;>
      (by_cases hz : s.mode = .zen <;> simp [advanceRound, hr, hz])

/-- A tick keeps the timer discipline. -/
theorem tick_timerOk (s : State) (h : TimerOk s) : TimerOk (tick s).1 := by
  rcases tick_state_cases s with h1 | ⟨-, -, -, h1⟩ | ⟨-, -, -, h1⟩ | ⟨-, -, -, -, h1⟩ |
    ⟨-, -, -, -, h1⟩
  · rw [h1]; exact h
  · rw [h1]
    exact (terminal_timerOk { s with currentTime := s.currentTime - tickDecay s }
      (timerOk_congr s _ h rfl rfl rfl rfl)).1
  · rw [h1]; exact timerOk_congr s _ h rfl rfl rfl rfl
  · rw [h1]; exact timerOk_congr s _ h rfl rfl rfl rfl
  · rw [h1]
    exact advanceRound_timerOk { s with currentTime := s.currentTime - tickDecay s,
                                        roundDuration := s.roundDuration + 0.1 }
      (timerOk_congr s _ h rfl rfl rfl rfl)

/-- `validateInput` keeps the timer discipline. -/
theorem validateInput_timerOk (s : State) (text : Str) (d : Draws) (h : TimerOk s) :
    TimerOk (validateInput text d s).1 := by
  rcases validateInput_state_cases s text d with h1 | ⟨-, h1, -⟩ | ⟨-, h1⟩
  · rw [h1]; exact h
  · rw [h1]
    have hh := wordCompleted_host d s
    have hf := wordCompleted_fields d s
    exact timerOk_congr s _ h hh.2.1 hh.1 hf.2.2.2.2.1 hh.2.2.1
  · rw [h1]; exact timerOk_congr s _ h rfl rfl rfl rfl

/-- Every operation keeps the timer discipline. -/
theorem step_timerOk (o : Op) (s : State) (h : TimerOk s) : TimerOk (step o s).1 := by
  cases o with
  | reset m => exact (resetGame_timerOk m s h).1
  | start m d => exact startGame_timerOk m d s h
  | hud =>
    show TimerOk (hudTimeout s).1
    unfold hudTimeout
    split
    · exact h
    · exact timerOk_congr s _ h rfl rfl rfl rfl
  | act a =>
    cases a with
    | tick => exact tick_timerOk s h
    | type text d => exact validateInput_timerOk s text d h

/-- C15. In every state reached from the constructor's state by any sequence
of `init`/`resetGame`, `startGame`, `validateInput`, ticks and the deferred HUD
callback, exactly one interval is scheduled when `isPlaying` is true, none is
scheduled when `isPlaying` is false, and a scheduled interval is always the
handle stored in `this.timer`. -/
theorem timer_unique (ops : List Op) :
    ((run ops new).1.isPlaying = true → (run ops new).1.activeIntervals.length = 1) ∧
    ((run ops new).1.isPlaying = false → (run ops new).1.activeIntervals = []) ∧
    (∀ h ∈ (run ops new).1.activeIntervals, (run ops new).1.timer = some h) := by
  have h0 : TimerOk new := by
    refine ⟨?_, ?_, ?_⟩ <;> simp [new]
  have hinv : TimerOk (run ops new).1 := by
    generalize new = s at h0
    induction ops generalizing s with
    | nil => exact h0
    | cons o os ih => exact ih _ (step_timerOk o s h0)
  obtain ⟨a, b, -⟩ := hinv
  refine ⟨?_, ?_, fun h hh => (a h hh).2⟩
  · intro hp; rw [b]; simp [hp]
  · intro hp
    rw [hp] at b
    exact List.length_eq_zero.mp (by simpa using b)

/-- Witness of C15: after `init` and `startGame('normal')` one interval is
scheduled; after `init` alone none is. -/
theorem timer_unique_witness :
    (run [.reset .normal, .start (some .normal) ⟨0, 0, 0, 0⟩] new).1.activeIntervals.length
      = 1 ∧
    (run [.reset .normal] new).1.activeIntervals = [] :=
  ⟨(timer_unique [.reset .normal, .start (some .normal) ⟨0, 0, 0, 0⟩]).1 (by decide!),
   (timer_unique [.reset .normal]).2.1 (by decide!)⟩

/-- A registration under a name that is not inherited succeeds and appends the
callback to the array of that name. -/
theorem onEvent_own (event : String) (callback : Callback) (ls : Listeners)
    (h : event ∉ inheritedNames) :
    onEvent event callback ls =
      .ok (fun e => if e = event then some ((ls event).getD [] ++ [callback]) else ls e) := by
  cases hl : ls event with
  | none =>
    simp only [onEvent, readSlot, hl, h, if_false, if_true, Option.getD_none, List.nil_append]
    congr 1
    funext e
    by_cases he : e = event <;> simp [he]
  | some cbs =>
    simp only [onEvent, readSlot, hl, Option.getD_some]

/-- A sequence of registrations under names that are not inherited succeeds,
and appends to the array of each name its callbacks in registration order. -/
theorem subscribe_own (regs : List (String × Callback)) : ∀ ls : Listeners,
    (∀ r ∈ regs, r.1 ∉ inheritedNames) →
    ∃ ls1, subscribe regs ls = .ok ls1 ∧
      ∀ e, (ls1 e).getD [] =
        (ls e).getD [] ++ (regs.filter (fun r => r.1 = e)).map (fun r => r.2) := by
  induction regs with
  | nil => intro ls _; exact ⟨ls, rfl, fun e => by simp⟩
  | cons r rest ih =>
    intro ls h
    have hr : r.1 ∉ inheritedNames := h r (List.mem_cons_self _ _)
    have hrest : ∀ x ∈ rest, x.1 ∉ inheritedNames := fun x hx => h x (List.mem_cons_of_mem _ hx)
    obtain ⟨ls1, h1, h2⟩ := ih _ hrest
    refine ⟨ls1, ?_, ?_⟩
    · simp only [subscribe, onEvent_own r.1 r.2 ls hr]
      exact h1
    · intro e
      rw [h2 e]
      by_cases he : r.1 = e
      · subst he
        simp [List.filter_cons]
      · have he' : ¬ e = r.1 := fun x => he x.symm
        simp [List.filter_cons, he, he']

/-- For a name that is not inherited, `emit` calls the callbacks of the name,
in array order, with the payload. -/
theorem emit_own (δ : Type) (event : String) (data : δ) (ls : Listeners)
    (h : event ∉ inheritedNames) :
    emit event data ls = .ok (((ls event).getD []).map (fun cb => (cb, data))) := by
  cases hl : ls event <;> simp [emit, readSlot, hl, h]

/-- What holds of the event bus for names that are not inherited from
`Object.prototype`: after any sequence of registrations under such names on a
fresh engine, `emit(e, data)` calls exactly the callbacks registered under
`e`, once per registration and in registration order, each with `data`. -/
theorem emit_registration_order_own_names (regs : List (String × Callback))
    (h : ∀ r ∈ regs, r.1 ∉ inheritedNames) :
    ∃ ls, subscribe regs noListeners = .ok ls ∧
      ∀ (δ : Type) (e : String) (data : δ), e ∉ inheritedNames →
        emit e data ls = .ok ((regs.filter (fun r => r.1 = e)).map (fun r => (r.2, data))) := by
  obtain ⟨ls, h1, h2⟩ := subscribe_own regs noListeners h
  refine ⟨ls, h1, ?_⟩
  intro δ e data he
  rw [emit_own δ e data ls he, h2 e]
  simp [noListeners, List.map_map, Function.comp]

/-- C14, at the failing input. On a fresh engine `emit('toString', 0)` throws
`TypeError` although `toString` has no subscriber, `on('constructor', 1)`
throws `TypeError` instead of registering the callback, and so does a sequence
of registrations that reaches such a name; a name that is not inherited
(`update-hud`) behaves as claimed. -/
theorem event_bus_throws_on_inherited_names :
    emit "toString" (0 : Nat) noListeners = .error .typeError ∧
    onEvent "constructor" 1 noListeners = .error .typeError ∧
    subscribe [("update-hud", 1), ("constructor", 2)] noListeners = .error .typeError ∧
    (subscribe [("update-hud", 1), ("game-over", 2), ("update-hud", 3)] noListeners).toBool
      = true ∧
    emit "update-hud" (0 : Nat) noListeners = .ok [] := by
  have h1 : "toString" ∈ inheritedNames := by decide!
  have h2 : "constructor" ∈ inheritedNames := by decide!
  have h3 : "update-hud" ∉ inheritedNames := by decide!
  refine ⟨?_, ?_, ?_, by decide!, ?_⟩
  · simp [emit, readSlot, noListeners, h1]
  · simp [onEvent, readSlot, noListeners, h2]
  · simp only [subscribe, onEvent_own "update-hud" 1 noListeners h3]
    simp [onEvent, readSlot, noListeners, h2]
  · simp [emit, readSlot, noListeners, h3]

/-- In a playing state a proper leading part of the target changes nothing. -/
theorem validateInput_of_leading_part (s : State) (text : Str) (d : Draws)
    (hp : s.isPlaying = true) (hpre : cleanText text <+: s.currentWord)
    (hne : cleanText text ≠ s.currentWord) :
    validateInput text d s =
      (s, [.mascotTyping,
           .inputCheck (cleanText text).length false (-1) (cleanText text).length],
       some .continue) := by
  have hloop := checkLoop_of_leading_part (cleanText text) s.currentWord 0 0 hpre
  have hok : (checkLoop (cleanText text) s.currentWord 0 0).isError = false := by
    rw [hloop]
  rw [validateInput_of_ok s text d hp hne hok, hloop]
  simp

/-- Along a run without mismatch that completes `n` words, the combo grows by
`n` and the score by the sum of `10 + 2 * (combo + k)` for `k < n`. -/
theorem streak_general (acts : List Act) : ∀ (s : State) (n : Nat),
    completions acts s = some n →
    (play acts s).1.combo = s.combo + n ∧
    (play acts s).1.score = s.score + n * (n + 9 + 2 * s.combo) := by
  induction acts with
  | nil =>
    intro s n h
    simp only [completions, Option.some.injEq] at h
    subst h
    simp [play]
  | cons a rest ih =>
    intro s n h
    cases a with
    | tick =>
      have hf := tick_frame s
      have := ih (tick s).1 n h
      simp only [play, act]
      rw [this.1, this.2, hf.1, hf.2.2.1]
      exact ⟨rfl, rfl⟩
    | type text d =>
      simp only [play, act]
      rcases Bool.eq_false_or_eq_true s.isPlaying with hp | hp
      swap
      · have hv : validateInput text d s = (s, [], none) := by simp [validateInput, hp]
        simp only [completions, hp, if_true] at h
        rw [hv] at h ⊢
        exact ih s n h
      · have hp' : ¬ s.isPlaying = false := by simp [hp]
        by_cases hm : cleanText text = s.currentWord
        · simp only [completions, hp', hm, if_true, if_false] at h
          cases hm1 : completions rest (validateInput text d s).1 with
          | none => rw [hm1] at h; simp at h
          | some m =>
          rw [hm1] at h
          have hm2 : m + 1 = n := by simpa using h
          have hv : (validateInput text d s).1 = (wordCompleted d s).1 := by
            simp [validateInput, hp, hm]
          have hf := wordCompleted_fields d s
          have := ih _ m hm1
          rw [this.1, this.2, hv, hf.1, hf.2.1, ← hm2]
          constructor
          · omega
          · ring
        · by_cases hpre : cleanText text <+: s.currentWord
          · simp only [completions, hp', hm, hpre, if_true, if_false] at h
            rw [validateInput_of_leading_part s text d hp hpre hm] at h ⊢
            exact ih s n h
          · simp [completions, hp', hm, hpre] at h

/-- C19. From a state with `score = 0` and `combo = 0`, a run of ticks and
inputs without mismatch (leading parts of the word allowed) that completes
`n` words leaves `combo = n` and `score = n * (n + 9)`, which is the sum of
`10 + 2 * k` for `k < n`. After a mismatching input in a playing state the
next completed word awards exactly 10. -/
theorem combo_streak_total :
    (∀ (acts : List Act) (s : State) (n : Nat), s.score = 0 → s.combo = 0 →
      completions acts s = some n →
      (play acts s).1.combo = n ∧ (play acts s).1.score = n * (n + 9)) ∧
    (∀ n : Nat, n * (n + 9) = ((List.range n).map (fun k => 10 + 2 * k)).sum) ∧
    (∀ (s : State) (t1 t2 : Str) (d1 d2 : Draws), s.isPlaying = true →
      ¬ cleanText t1 <+: s.currentWord → cleanText t2 = s.currentWord →
      (validateInput t2 d2 (validateInput t1 d1 s).1).1.score = s.score + 10) := by
  refine ⟨?_, ?_, ?_⟩
  · intro acts s n hs hc h
    have := streak_general acts s n h
    rw [this.1, this.2, hs, hc]
    simp
  · intro n
    induction n with
    | zero => simp
    | succ n ih =>
      rw [List.range_succ, List.map_append, List.sum_append, ← ih]
      simp
      ring
  · intro s t1 t2 d1 d2 hp hmis hmatch
    have hne : cleanText t1 ≠ s.currentWord := by
      intro h; rw [h] at hmis; exact hmis (List.prefix_refl _)
    have herr := (checkLoop_isError (cleanText t1) s.currentWord 0 0).2 hmis
    have e1 : (validateInput t1 d1 s).1 =
        { s with currentTime := if s.mode = .zen then s.currentTime
                                else max 0 (s.currentTime - 1),
                 combo := 0 } := by
      rw [validateInput_of_error s t1 d1 hp hne herr]
    have hv : ∀ s' : State, s'.isPlaying = true → cleanText t2 = s'.currentWord →
        (validateInput t2 d2 s').1 = (wordCompleted d2 s').1 := by
      intro s' h1 h2
      simp [validateInput, h1, h2]
    have f : (validateInput t1 d1 s).1.isPlaying = true ∧
        (validateInput t1 d1 s).1.currentWord = s.currentWord ∧
        (validateInput t1 d1 s).1.combo = 0 ∧ (validateInput t1 d1 s).1.score = s.score := by
      rw [e1]; exact ⟨hp, rfl, rfl, rfl⟩
    generalize (validateInput t1 d1 s).1 = s' at f
    rw [hv s' f.1 (hmatch.trans f.2.1.symm), (wordCompleted_fields d2 s').2.1, f.2.2.1,
      f.2.2.2]

/-- Witness of C19: `tok`, a tick, `token`, `token` completes two words for
10 + 12 points; a wrong key followed by `token` awards 10. -/
theorem combo_streak_total_witness :
    (play [.type "tok".toList ⟨0, 0, 0, 0⟩, .tick, .type "token".toList ⟨0, 0, 0, 0⟩,
           .type "token".toList ⟨0, 0, 0, 0⟩] freshNormal).1.combo = 2 ∧
    (play [.type "tok".toList ⟨0, 0, 0, 0⟩, .tick, .type "token".toList ⟨0, 0, 0, 0⟩,
           .type "token".toList ⟨0, 0, 0, 0⟩] freshNormal).1.score = 2 * (2 + 9) ∧
    (validateInput "token".toList ⟨0, 0, 0, 0⟩
      (validateInput "x".toList ⟨0, 0, 0, 0⟩ freshNormal).1).1.score = 0 + 10 :=
  ⟨(combo_streak_total.1 _ freshNormal 2 (by decide!) (by decide!) (by decide!)).1,
   (combo_streak_total.1 _ freshNormal 2 (by decide!) (by decide!) (by decide!)).2,
   combo_streak_total.2.2 freshNormal "x".toList "token".toList ⟨0, 0, 0, 0⟩ ⟨0, 0, 0, 0⟩
     (by decide!) (by decide!) (by decide!)⟩

/-- C12, the claim as stated fails. After 199 ticks of an unattended normal
game the state is playing, in round 1, with `currentTime - 0.1 = 40 > 0`; the
next tick ends the round and leaves `currentTime = 50`, not `40`, and
`roundDuration = 0`, not `19.9 + 0.1`. -/
theorem tick_decay_fails_at_round_end :
    roundEndDemo.isPlaying = true ∧ roundEndDemo.mode = .normal ∧ roundEndDemo.round ≤ 2 ∧
    0 < roundEndDemo.currentTime - 0.1 ∧
    roundEndDemo.currentTime - 0.1 = 40 ∧
    (tick roundEndDemo).1.currentTime = 50 ∧
    (tick roundEndDemo).1.currentTime ≠ roundEndDemo.currentTime - 0.1 ∧
    roundEndDemo.roundDuration = 19.9 ∧
    (tick roundEndDemo).1.roundDuration = 0 ∧
    (tick roundEndDemo).1.roundDuration ≠ roundEndDemo.roundDuration + 0.1 := by
  decide!

/-- A tick or an input outside normal mode keeps the mode, `round` and
`roundDuration`. -/
theorem act_round_clock_idle (a : Act) (s : State) (hm : s.mode ≠ .normal) :
    (act a s).1.mode = s.mode ∧ (act a s).1.round = s.round ∧
    (act a s).1.roundDuration = s.roundDuration := by
  cases a with
  | tick =>
    show (tick s).1.mode = s.mode ∧ (tick s).1.round = s.round ∧
      (tick s).1.roundDuration = s.roundDuration
    rcases tick_state_cases s with h1 | ⟨-, -, -, h1⟩ | ⟨-, -, -, h1⟩ | ⟨-, h, -, -, -⟩ |
      ⟨-, h, -, -, -⟩
    · rw [h1]; exact ⟨rfl, rfl, rfl⟩
    · rw [h1]; simp [gameOver]
    · rw [h1]; exact ⟨rfl, rfl, rfl⟩
    · exact absurd h hm
    · exact absurd h hm
  | type text d =>
    show (validateInput text d s).1.mode = s.mode ∧ (validateInput text d s).1.round = s.round ∧
      (validateInput text d s).1.roundDuration = s.roundDuration
    rcases validateInput_state_cases s text d with h1 | ⟨-, h1, -⟩ | ⟨-, h1⟩
    · rw [h1]; exact ⟨rfl, rfl, rfl⟩
    · rw [h1]
      have hf := wordCompleted_fields d s
      exact ⟨hf.2.2.2.2.2.1, hf.2.2.2.2.2.2.1, hf.2.2.2.2.2.2.2.2.1⟩
    · rw [h1]; exact ⟨rfl, rfl, rfl⟩

/-- Ticks and inputs outside normal mode keep the mode, `round` and
`roundDuration`. -/
theorem play_round_clock_idle (acts : List Act) : ∀ s : State, s.mode ≠ .normal →
    (play acts s).1.mode = s.mode ∧ (play acts s).1.round = s.round ∧
    (play acts s).1.roundDuration = s.roundDuration := by
  induction acts with
  | nil => intro s _; exact ⟨rfl, rfl, rfl⟩
  | cons a rest ih =>
    intro s hm
    have h1 := act_round_clock_idle a s hm
    have h2 := ih (act a s).1 (by rw [h1.1]; exact hm)
    simp only [play]
    exact ⟨h2.1.trans h1.1, h2.2.1.trans h1.2.1, h2.2.2.trans h1.2.2⟩

/-- A normal tick that brings `roundDuration` to 20 in the last round: the
decay is subtracted, `roundDuration` grows by 0.1, and `advanceRound` ends the
game with `game-win`. -/
theorem tick_normal_last_round (s : State) (hp : s.isPlaying = true) (hm : s.mode = .normal)
    (hz : 0 < s.currentTime - tickDecay s) (hr : maxRoundDuration ≤ s.roundDuration + 0.1)
    (hge : totalRounds ≤ s.round) :
    (tick s).1.currentTime = s.currentTime - tickDecay s ∧
    (tick s).1.roundDuration = s.roundDuration + 0.1 ∧
    (tick s).1.round = s.round ∧
    (tick s).1.isPlaying = false := by
  have hw : advanceRound { s with currentTime := s.currentTime - tickDecay s,
                                  roundDuration := s.roundDuration + 0.1 } =
      gameWin { s with currentTime := s.currentTime - tickDecay s,
                       roundDuration := s.roundDuration + 0.1 } := by
    simp [advanceRound, hge]
  rw [tick_normal_advance s hp hm hz hr, hw]
  simp [gameWin]

/-- A normal tick that does not start a new round: either `roundDuration`
stays below 20, or the round is the last one. The decay is subtracted and
`roundDuration` grows by 0.1. -/
theorem tick_normal_no_advance (s : State) (hp : s.isPlaying = true) (hm : s.mode = .normal)
    (hz : 0 < s.currentTime - tickDecay s)
    (hno : s.roundDuration + 0.1 < maxRoundDuration ∨ totalRounds ≤ s.round) :
    (tick s).1.currentTime = s.currentTime - tickDecay s ∧
    (tick s).1.roundDuration = s.roundDuration + 0.1 := by
  rcases lt_or_le (s.roundDuration + 0.1) maxRoundDuration with hr | hr
  · rw [tick_normal s hp hm hz hr]
    exact ⟨rfl, rfl⟩
  · rcases hno with h | h
    · exact absurd hr (not_le.mpr h)
    · exact ⟨(tick_normal_last_round s hp hm hz hr h).1,
        (tick_normal_last_round s hp hm hz hr h).2.1⟩

/-- C12, amended. In a playing state whose `currentTime` minus the decay stays
above 0: a normal tick that does not start a new round (`roundDuration + 0.1`
stays below 20, or the round is the last one) subtracts exactly 0.1
(`round ≤ 2`), 0.15 (`3 ≤ round ≤ 5`) or 0.25 (`round > 5`) and adds 0.1 to
`roundDuration`; a chaos tick subtracts exactly 0.4 and a zen tick subtracts
nothing, both leaving `roundDuration` unchanged. The one tick left out, the
normal tick that brings `roundDuration` to 20 before the last round, leaves
`currentTime = min maxTime (currentTime - decay + 10)`, `roundDuration = 0`
and `round + 1`. In chaos and zen games `round` stays 1 and `roundDuration`
stays 0 whatever ticks and inputs follow `startGame`. -/
theorem tick_decay_table :
    (∀ s : State, s.isPlaying = true → s.mode = .normal →
      (s.roundDuration + 0.1 < maxRoundDuration ∨ totalRounds ≤ s.round) →
      (s.round ≤ 2 → 0 < s.currentTime - 0.1 →
        (tick s).1.currentTime = s.currentTime - 0.1 ∧
        (tick s).1.roundDuration = s.roundDuration + 0.1) ∧
      (3 ≤ s.round → s.round ≤ 5 → 0 < s.currentTime - 0.15 →
        (tick s).1.currentTime = s.currentTime - 0.15 ∧
        (tick s).1.roundDuration = s.roundDuration + 0.1) ∧
      (5 < s.round → 0 < s.currentTime - 0.25 →
        (tick s).1.currentTime = s.currentTime - 0.25 ∧
        (tick s).1.roundDuration = s.roundDuration + 0.1)) ∧
    (∀ s : State, s.isPlaying = true → s.mode = .chaos → 0 < s.currentTime - 0.4 →
      (tick s).1.currentTime = s.currentTime - 0.4 ∧
      (tick s).1.roundDuration = s.roundDuration) ∧
    (∀ s : State, s.isPlaying = true → s.mode = .zen →
      (tick s).1.currentTime = s.currentTime ∧
      (tick s).1.roundDuration = s.roundDuration) ∧
    (∀ s : State, s.isPlaying = true → s.mode = .normal →
      0 < s.currentTime - tickDecay s → maxRoundDuration ≤ s.roundDuration + 0.1 →
      s.round < totalRounds →
      (tick s).1.currentTime = min s.maxTime (s.currentTime - tickDecay s + 10) ∧
      (tick s).1.roundDuration = 0 ∧ (tick s).1.round = s.round + 1) ∧
    (∀ (m : Mode) (s0 : State) (d : Draws) (acts : List Act), m ≠ .normal →
      (play acts (startGame (some m) d s0).1).1.round = 1 ∧
      (play acts (startGame (some m) d s0).1).1.roundDuration = 0) := by
  refine ⟨?_, ?_, ?_, ?_, ?_⟩
  · intro s hp hm hno
    refine ⟨?_, ?_, ?_⟩
    · intro h1 hz
      have hd : tickDecay s = 0.1 := by simp [tickDecay, hm, h1]
      have h := tick_normal_no_advance s hp hm (by rw [hd]; exact hz) hno
      rw [hd] at h
      exact h
    · intro h1 h2 hz
      have a : ¬ s.round ≤ 2 := by omega
      have hd : tickDecay s = 0.15 := by simp [tickDecay, hm, a, h2]
      have h := tick_normal_no_advance s hp hm (by rw [hd]; exact hz) hno
      rw [hd] at h
      exact h
    · intro h1 hz
      have a : ¬ s.round ≤ 2 := by omega
      have b : ¬ s.round ≤ 5 := by omega
      have hd : tickDecay s = 0.25 := by simp [tickDecay, hm, a, b]
      have h := tick_normal_no_advance s hp hm (by rw [hd]; exact hz) hno
      rw [hd] at h
      exact h
  · intro s hp hm hz
    have hd : tickDecay s = 0.4 := by simp [tickDecay, hm]
    rw [tick_chaos s hp hm (by rw [hd]; exact hz), hd]
    exact ⟨rfl, rfl⟩
  · intro s hp hm
    rw [tick_zen s hp hm]
    exact ⟨rfl, rfl⟩
  · intro s hp hm hz hr hlt
    have h := tick_normal_advance_fields s hp hm hz hr hlt
    exact ⟨h.2.2.1, h.2.1, h.1⟩
  · intro m s0 d acts hm
    have h0 : (startGame (some m) d s0).1.mode = m ∧ (startGame (some m) d s0).1.round = 1 ∧
        (startGame (some m) d s0).1.roundDuration = 0 := by
      cases m <;> simp [startGame, startTimer, nextWord, resetGame]
    have h := play_round_clock_idle acts (startGame (some m) d s0).1 (by rw [h0.1]; exact hm)
    exact ⟨h.2.1.trans h0.2.1, h.2.2.trans h0.2.2⟩

/-- Witness of C12 as amended: a tick of a fresh normal game; the tick that
brings `roundDuration` to 20 in round 10 (`lastRoundDemo`: 0.5 seconds left,
`roundDuration` 20); the round-ending tick of `roundEndDemo`; a chaos game
after a tick and a wrong key. -/
theorem tick_decay_table_witness :
    (tick freshNormal).1.currentTime = freshNormal.currentTime - 0.1 ∧
    (tick freshNormal).1.roundDuration = freshNormal.roundDuration + 0.1 ∧
    (tick lastRoundDemo).1.currentTime = lastRoundDemo.currentTime - 0.25 ∧
    (tick lastRoundDemo).1.roundDuration = lastRoundDemo.roundDuration + 0.1 ∧
    (tick roundEndDemo).1.round = roundEndDemo.round + 1 ∧
    (play [.tick, .type "x".toList ⟨0, 0, 0, 0⟩]
      (startGame (some .chaos) ⟨0, 0, 0, 0⟩ new).1).1.round = 1 :=
  ⟨((tick_decay_table.1 freshNormal (by decide!) (by decide!) (by decide!)).1 (by decide!)
      (by decide!)).1,
   ((tick_decay_table.1 freshNormal (by decide!) (by decide!) (by decide!)).1 (by decide!)
      (by decide!)).2,
   ((tick_decay_table.1 lastRoundDemo (by decide!) (by decide!) (by decide!)).2.2 (by decide!)
      (by decide!)).1,
   ((tick_decay_table.1 lastRoundDemo (by decide!) (by decide!) (by decide!)).2.2 (by decide!)
      (by decide!)).2,
   (tick_decay_table.2.2.2.1 roundEndDemo (by decide!) (by decide!) (by decide!) (by decide!)
      (by decide!)).2.2,
   (tick_decay_table.2.2.2.2 .chaos new ⟨0, 0, 0, 0⟩ _ (by decide)).1⟩

/-- `a + b` ticks are `a` ticks followed by `b` ticks. -/
theorem play_ticks_add (a b : Nat) (s : State) :
    play (ticks (a + b)) s =
      ((play (ticks b) (play (ticks a) s).1).1,
       (play (ticks a) s).2 ++ (play (ticks b) (play (ticks a) s).1).2) := by
  have : ticks (a + b) = ticks a ++ ticks b := by
    unfold ticks
    exact List.replicate_add a b Act.tick
  rw [this, play_append]

/-- A whole round of an unattended normal game: 200 ticks from the start of a
round before the last one, with enough time on the clock. During the first 199
ticks the game is playing in the same round; the 200th tick starts the next
round and heals by 10, clamped to `maxTime`. No terminal event is emitted. -/
theorem play_round_normal (s : State) (hp : s.isPlaying = true) (hm : s.mode = .normal)
    (hrd : s.roundDuration = 0) (hlt : s.round < totalRounds)
    (hz : 0 < s.currentTime - 200 * tickDecay s) :
    (∀ k : Nat, k ≤ 199 → (play (ticks k) s).1.round = s.round ∧
      (play (ticks k) s).1.isPlaying = true) ∧
    (play (ticks 200) s).1.isPlaying = true ∧
    (play (ticks 200) s).1.mode = .normal ∧
    (play (ticks 200) s).1.round = s.round + 1 ∧
    (play (ticks 200) s).1.roundDuration = 0 ∧
    (play (ticks 200) s).1.maxTime = s.maxTime ∧
    (play (ticks 200) s).1.currentTime = min s.maxTime (s.currentTime - 200 * tickDecay s + 10) ∧
    (play (ticks 200) s).1.score = s.score ∧
    (play (ticks 200) s).1.totalScore = s.totalScore ∧
    (∀ e ∈ (play (ticks 200) s).2, e.isTerminal = false) := by
  have hd := tickDecay_pos s
  have alive : ∀ k : Nat, k ≤ 199 →
      (0 : ℚ) < s.currentTime - k * tickDecay s ∧
      s.roundDuration + k * 0.1 < maxRoundDuration := by
    intro k hk
    have h1 : (k : ℚ) ≤ 199 := by exact_mod_cast hk
    rw [hrd, maxRoundDuration]
    constructor
    · nlinarith
    · norm_num; linarith
  obtain ⟨hst, hev⟩ := play_ticks_normal 199 s hp hm (alive 199 (le_refl _)).1
    (alive 199 (le_refl _)).2
  have gp : (play (ticks 199) s).1.isPlaying = true := by rw [hst]; exact hp
  have gm : (play (ticks 199) s).1.mode = .normal := by rw [hst]; exact hm
  have gr : (play (ticks 199) s).1.round = s.round := by rw [hst]
  have gmax : (play (ticks 199) s).1.maxTime = s.maxTime := by rw [hst]
  have gsc : (play (ticks 199) s).1.score = s.score := by rw [hst]
  have gts : (play (ticks 199) s).1.totalScore = s.totalScore := by rw [hst]
  have gt : (play (ticks 199) s).1.currentTime = s.currentTime - 199 * tickDecay s := by
    rw [hst]; simp
  have grd : (play (ticks 199) s).1.roundDuration = 199 * 0.1 := by
    rw [hst]; simp only [hrd]; norm_num
  have gd : tickDecay (play (ticks 199) s).1 = tickDecay s := by
    simp [tickDecay, gm, gr, hm]
  have hlast := tick_normal_advance_fields (play (ticks 199) s).1 gp gm
    (by rw [gt, gd]; linarith) (by rw [grd, maxRoundDuration]; norm_num)
    (by rw [gr]; exact hlt)
  have hfr := tick_frame (play (ticks 199) s).1
  obtain ⟨l1, l2, l3, l4, l5, l6, -, l8⟩ := hlast
  refine ⟨?_, ?_⟩
  · intro k hk
    rw [(play_ticks_normal k s hp hm (alive k hk).1 (alive k hk).2).1]
    exact ⟨rfl, hp⟩
  · rw [play_ticks_succ 199 s]
    generalize play (ticks 199) s = q at hev gr gmax gt gd gsc gts l1 l2 l3 l4 l5 l6 l8 hfr
    dsimp only
    refine ⟨l4, l5, by rw [l1, gr], l2, l6.trans gmax, ?_, hfr.1.trans gsc,
      hfr.2.1.trans gts, ?_⟩
    · have e : s.currentTime - 199 * tickDecay s - tickDecay s + 10
          = s.currentTime - 200 * tickDecay s + 10 := by ring
      rw [l3, gmax, gt, gd, e]
    · intro e he
      rcases List.mem_append.mp he with he | he
      · exact (hev e he).1
      · exact l8 e he

/-- The last stretch of an unattended normal game: from the start of round 4
with 20 seconds left, the game is playing in round 4 for 133 ticks and the
134th tick ends it with `game-over`. -/
theorem play_last_stretch (s : State) (hp : s.isPlaying = true) (hm : s.mode = .normal)
    (hround : s.round = 4) (hrd : s.roundDuration = 0) (ht : s.currentTime = 20) :
    (∀ k : Nat, k ≤ 133 → (play (ticks k) s).1.round = 4 ∧
      (play (ticks k) s).1.isPlaying = true) ∧
    (play (ticks 134) s).1.isPlaying = false ∧
    (play (ticks 134) s).1.round = 4 ∧
    (play (ticks 134) s).1.currentTime = -(1 / 10) ∧
    (play (ticks 134) s).2 = (play (ticks 133) s).2 ++ [.gameOver s.score s.totalScore] ∧
    (∀ e ∈ (play (ticks 133) s).2, e.isTerminal = false) := by
  have hd : tickDecay s = 0.15 := by simp [tickDecay, hm, hround]
  have alive : ∀ k : Nat, k ≤ 133 →
      (0 : ℚ) < s.currentTime - k * tickDecay s ∧
      s.roundDuration + k * 0.1 < maxRoundDuration := by
    intro k hk
    have h1 : (k : ℚ) ≤ 133 := by exact_mod_cast hk
    rw [hrd, ht, hd, maxRoundDuration]
    constructor <;> norm_num <;> linarith
  obtain ⟨hst, hev⟩ := play_ticks_normal 133 s hp hm (alive 133 (le_refl _)).1
    (alive 133 (le_refl _)).2
  have gp : (play (ticks 133) s).1.isPlaying = true := by rw [hst]; exact hp
  have gm : (play (ticks 133) s).1.mode ≠ .zen := by rw [hst]; simp [hm]
  have gr : (play (ticks 133) s).1.round = 4 := by rw [hst]; exact hround
  have gsc : (play (ticks 133) s).1.score = s.score := by rw [hst]
  have gts : (play (ticks 133) s).1.totalScore = s.totalScore := by rw [hst]
  have gt : (play (ticks 133) s).1.currentTime = 1 / 20 := by
    rw [hst]; simp only [ht, hd]; norm_num
  have gd : tickDecay (play (ticks 133) s).1 = 0.15 := by
    rw [hst]; simp [tickDecay, hm, hround]
  have hover := tick_over (play (ticks 133) s).1 gp gm (by rw [gt, gd]; norm_num)
  refine ⟨?_, ?_⟩
  · intro k hk
    rw [(play_ticks_normal k s hp hm (alive k hk).1 (alive k hk).2).1]
    exact ⟨hround, hp⟩
  · rw [play_ticks_succ 133 s]
    generalize play (ticks 133) s = q at hev gr gsc gts gt gd hover
    dsimp only
    rw [hover]
    refine ⟨by simp [gameOver], by simpa [gameOver] using gr, ?_, ?_, fun e he => (hev e he).1⟩
    · simp only [gameOver, clearInterval_currentTime, gt, gd]; norm_num
    · simp [gameOver, gsc, gts]

/-- C20. An unattended normal game (ticks only after `startGame('normal')`):
`round` is 1 up to tick 199, 2 from tick 200 to 399, 3 from tick 400 to 599
and 4 from tick 600 on, with `currentTime` 50, 40 and 20 right after the
advances at ticks 200, 400 and 600; the game is playing up to tick 733, and
tick 734 ends it in round 4 with `game-over` as its only event. No terminal
event is emitted before, and no `game-win` is emitted at all. -/
theorem unattended_normal_game_is_lost (s0 : State) (d : Draws) :
    (∀ k : Nat, k ≤ 199 →
      (play (ticks k) (startGame (some .normal) d s0).1).1.round = 1) ∧
    (play (ticks 200) (startGame (some .normal) d s0).1).1.round = 2 ∧
    (play (ticks 200) (startGame (some .normal) d s0).1).1.currentTime = 50 ∧
    (∀ k : Nat, k ≤ 199 →
      (play (ticks (200 + k)) (startGame (some .normal) d s0).1).1.round = 2) ∧
    (play (ticks 400) (startGame (some .normal) d s0).1).1.round = 3 ∧
    (play (ticks 400) (startGame (some .normal) d s0).1).1.currentTime = 40 ∧
    (∀ k : Nat, k ≤ 199 →
      (play (ticks (400 + k)) (startGame (some .normal) d s0).1).1.round = 3) ∧
    (play (ticks 600) (startGame (some .normal) d s0).1).1.round = 4 ∧
    (play (ticks 600) (startGame (some .normal) d s0).1).1.currentTime = 20 ∧
    (∀ k : Nat, k ≤ 133 →
      (play (ticks (600 + k)) (startGame (some .normal) d s0).1).1.round = 4 ∧
      (play (ticks (600 + k)) (startGame (some .normal) d s0).1).1.isPlaying = true) ∧
    (play (ticks 734) (startGame (some .normal) d s0).1).1.isPlaying = false ∧
    (play (ticks 734) (startGame (some .normal) d s0).1).1.round = 4 ∧
    (play (ticks 734) (startGame (some .normal) d s0).1).2 =
      (play (ticks 733) (startGame (some .normal) d s0).1).2 ++
        [.gameOver (startGame (some .normal) d s0).1.score
           (startGame (some .normal) d s0).1.totalScore] ∧
    (∀ e ∈ (play (ticks 733) (startGame (some .normal) d s0).1).2, e.isTerminal = false) ∧
    (∀ a b : Nat, Event.gameWin a b ∉ (play (ticks 734) (startGame (some .normal) d s0).1).2) := by
  obtain ⟨hp, hm, ht, hmax, hround, hrd⟩ := startGame_normal d s0
  generalize (startGame (some .normal) d s0).1 = s at hp hm ht hmax hround hrd
  -- round 1
  have R1 := play_round_normal s hp hm hrd (by rw [hround]; decide)
    (by simp only [tickDecay, hm, hround, ht]; norm_num)
  have d1 : tickDecay s = 0.1 := by simp [tickDecay, hm, hround]
  obtain ⟨r1a, r1p, r1m, r1r, r1d, r1x, r1t, r1s, r1ts, r1e⟩ := R1
  rw [hround] at r1r
  rw [hmax, ht, d1] at r1t
  rw [hmax] at r1x
  have r1t' : (play (ticks 200) s).1.currentTime = 50 := by rw [r1t]; norm_num
  -- the later checkpoints as continuations of the first 200 ticks
  have A : ∀ k : Nat, play (ticks (200 + k)) s =
      ((play (ticks k) (play (ticks 200) s).1).1,
       (play (ticks 200) s).2 ++ (play (ticks k) (play (ticks 200) s).1).2) :=
    fun k => play_ticks_add 200 k s
  have e400 : (400 : ℕ) = 200 + 200 := rfl
  have e600 : (600 : ℕ) = 200 + 400 := rfl
  have e733 : (733 : ℕ) = 200 + 533 := rfl
  have e734 : (734 : ℕ) = 200 + 534 := rfl
  have B : ∀ k : Nat, 400 + k = 200 + (200 + k) := fun k => by omega
  have C : ∀ k : Nat, 600 + k = 200 + (400 + k) := fun k => by omega
  refine ⟨fun k hk => by rw [(r1a k hk).1, hround], r1r, r1t', ?_⟩
  simp only [e400, e600, e733, e734, B, C, A]
  generalize play (ticks 200) s = q1 at r1p r1m r1r r1d r1x r1t' r1s r1ts r1e
  clear r1a r1t
  -- round 2
  have d2 : tickDecay q1.1 = 0.1 := by simp [tickDecay, r1m, r1r]
  have R2 := play_round_normal q1.1 r1p r1m r1d (by rw [r1r]; decide)
    (by rw [d2, r1t']; norm_num)
  obtain ⟨r2a, r2p, r2m, r2r, r2d, r2x, r2t, r2s, r2ts, r2e⟩ := R2
  rw [r1r] at r2r
  rw [r1x, r1t', d2] at r2t
  rw [r1x] at r2x
  have r2t' : (play (ticks 200) q1.1).1.currentTime = 40 := by rw [r2t]; norm_num
  have A2 : ∀ k : Nat, play (ticks (200 + k)) q1.1 =
      ((play (ticks k) (play (ticks 200) q1.1).1).1,
       (play (ticks 200) q1.1).2 ++ (play (ticks k) (play (ticks 200) q1.1).1).2) :=
    fun k => play_ticks_add 200 k q1.1
  have f400 : (400 : ℕ) = 200 + 200 := rfl
  have f533 : (533 : ℕ) = 200 + 333 := rfl
  have f534 : (534 : ℕ) = 200 + 334 := rfl
  have B2 : ∀ k : Nat, 400 + k = 200 + (200 + k) := fun k => by omega
  refine ⟨fun k hk => by rw [(r2a k hk).1, r1r], ?_⟩
  simp only [f400, f533, f534, B2, A2]
  generalize play (ticks 200) q1.1 = q2 at r2p r2m r2r r2d r2x r2t' r2s r2ts r2e
  clear r2a r2t
  -- round 3
  have d3 : tickDecay q2.1 = 0.15 := by simp [tickDecay, r2m, r2r]
  have R3 := play_round_normal q2.1 r2p r2m r2d (by rw [r2r]; decide)
    (by rw [d3, r2t']; norm_num)
  obtain ⟨r3a, r3p, r3m, r3r, r3d, r3x, r3t, r3s, r3ts, r3e⟩ := R3
  rw [r2r] at r3r
  rw [r2x, r2t', d3] at r3t
  have r3t' : (play (ticks 200) q2.1).1.currentTime = 20 := by rw [r3t]; norm_num
  have A3 : ∀ k : Nat, play (ticks (200 + k)) q2.1 =
      ((play (ticks k) (play (ticks 200) q2.1).1).1,
       (play (ticks 200) q2.1).2 ++ (play (ticks k) (play (ticks 200) q2.1).1).2) :=
    fun k => play_ticks_add 200 k q2.1
  have g333 : (333 : ℕ) = 200 + 133 := rfl
  have g334 : (334 : ℕ) = 200 + 134 := rfl
  refine ⟨r2r, r2t', fun k hk => by rw [(r3a k hk).1, r2r], ?_⟩
  simp only [g333, g334, A3]
  generalize play (ticks 200) q2.1 = q3 at r3p r3m r3r r3d r3t' r3s r3ts r3e
  clear r3a r3t
  -- round 4
  have L := play_last_stretch q3.1 r3p r3m r3r r3d r3t'
  obtain ⟨la, lp, lr, -, lev, le⟩ := L
  refine ⟨r3r, r3t', la, lp, lr, ?_, ?_, ?_⟩
  · rw [lev, r3s, r2s, r1s, r3ts, r2ts, r1ts]
    simp
  · intro e he
    simp only [List.mem_append] at he
    rcases he with he | he | he | he
    · exact r1e e he
    · exact r2e e he
    · exact r3e e he
    · exact le e he
  · intro a b he
    rw [lev] at he
    simp only [List.mem_append, List.mem_singleton] at he
    rcases he with he | he | he | he | he
    · exact absurd (r1e _ he) (by simp [Event.isTerminal])
    · exact absurd (r2e _ he) (by simp [Event.isTerminal])
    · exact absurd (r3e _ he) (by simp [Event.isTerminal])
    · exact absurd (le _ he) (by simp [Event.isTerminal])
    · cases he

/-- Witness of C20 from the constructor's state: round 2 at tick 399, round 4
and playing at tick 733, not playing at tick 734. -/
theorem unattended_normal_game_is_lost_witness :
    (play (ticks (200 + 199)) (startGame (some .normal) ⟨0, 0, 0, 0⟩ new).1).1.round = 2 ∧
    (play (ticks (600 + 133)) (startGame (some .normal) ⟨0, 0, 0, 0⟩ new).1).1.isPlaying
      = true ∧
    (play (ticks 734) (startGame (some .normal) ⟨0, 0, 0, 0⟩ new).1).1.isPlaying = false :=
  ⟨(unattended_normal_game_is_lost new ⟨0, 0, 0, 0⟩).2.2.2.1 199 (by decide),
   ((unattended_normal_game_is_lost new ⟨0, 0, 0, 0⟩).2.2.2.2.2.2.2.2.2.1 133 (by decide)).2,
   (unattended_normal_game_is_lost new ⟨0, 0, 0, 0⟩).2.2.2.2.2.2.2.2.2.2.1⟩

/-- The fuel `n` is enough: `log2Fuel n n` is the binary logarithm of `n`. -/
theorem log2Fuel_eq (fuel : Nat) : ∀ n : Nat, n ≤ fuel → log2Fuel fuel n = Nat.log2 n := by
  induction fuel with
  | zero =>
    intro n hn
    have : n = 0 := by omega
    subst this
    rw [Nat.log2]
    simp [log2Fuel]
  | succ fuel ih =>
    intro n hn
    rw [Nat.log2]
    by_cases h : 2 ≤ n
    · have : n / 2 ≤ fuel := by omega
      simp [log2Fuel, h, ih (n / 2) this]
    · simp [log2Fuel, h]

/-- The doubles of the engine's literals: `0.4` and `0.1` are the well-known
`0x3FD999999999999A` and `0x3FB999999999999A`; `30`, `0.25` and `1.5` are
exact. -/
theorem toDouble_literals :
    toDouble 0.4 = 3602879701896397 / 9007199254740992 ∧
    toDouble 0.1 = 3602879701896397 / 36028797018963968 ∧
    toDouble 0.15 = 5404319552844595 / 36028797018963968 ∧
    toDouble 0.8 = 3602879701896397 / 4503599627370496 ∧
    toDouble 30 = 30 ∧ toDouble 0.25 = 0.25 ∧ toDouble 1.5 = 1.5 ∧
    toDouble (-0.1) = -(3602879701896397 / 36028797018963968) := by
  decide!

/-- With exact arithmetic the parametrised tick is `tick`. -/
theorem tickWith_id (s : State) : tickWith id s = tick s := by
  have h1 : ∀ s : State, tickDecayWith id s = tickDecay s := fun _ => rfl
  have h2 : ∀ s : State, advanceRoundWith id s = advanceRound s := fun _ => rfl
  simp [tickWith, tick, h1, h2]

/-- With exact arithmetic `ticksWith` is `play` on ticks. -/
theorem ticksWith_id (n : Nat) : ∀ s : State, ticksWith id n s = play (ticks n) s := by
  induction n with
  | zero => intro s; rfl
  | succ n ih =>
    intro s
    simp [ticksWith, ticks, List.replicate_succ, play, act, tickWith_id, ih]

/-- A chaos tick in doubles that leaves time on the clock. -/
theorem tickWith_chaos_alive (s : State) (hp : s.isPlaying = true) (hm : s.mode = .chaos)
    (hz : 0 < toDouble (s.currentTime - toDouble 0.4)) :
    tickWith toDouble s =
      ({ s with currentTime := toDouble (s.currentTime - toDouble 0.4) },
       [.updateTimer (toDouble (s.currentTime - toDouble 0.4)) s.maxTime
          (toDouble (toDouble (s.roundDuration / maxRoundDuration) * 100))]) := by
  have hz' : ¬ toDouble (s.currentTime - toDouble 0.4) ≤ 0 := not_le.mpr hz
  simp [tickWith, tickDecayWith, hp, hm, hz']

/-- The chaos tick in doubles that drains the clock. -/
theorem tickWith_chaos_over (s : State) (hp : s.isPlaying = true) (hm : s.mode = .chaos)
    (hz : toDouble (s.currentTime - toDouble 0.4) ≤ 0) :
    tickWith toDouble s =
      gameOver { s with currentTime := toDouble (s.currentTime - toDouble 0.4) } := by
  simp [tickWith, tickDecayWith, hp, hm, hz]

/-- `n + 1` ticks are `n` ticks followed by one more. -/
theorem ticksWith_succ (rnd : ℚ → ℚ) (n : Nat) : ∀ s : State,
    ticksWith rnd (n + 1) s =
      ((tickWith rnd (ticksWith rnd n s).1).1,
       (ticksWith rnd n s).2 ++ (tickWith rnd (ticksWith rnd n s).1).2) := by
  induction n with
  | zero => intro s; simp [ticksWith]
  | succ n ih =>
    intro s
    rw [ticksWith, ih (tickWith rnd s).1]
    simp [ticksWith]

/-- Along a trace accepted by `aliveTrace`, the chaos ticks in doubles change
`currentTime` only, to the last value of the trace, and emit no terminal
event. -/
theorem ticksWith_chaos_trace (rest : List ℚ) : ∀ (a : ℚ) (s : State),
    s.isPlaying = true → s.mode = .chaos → s.currentTime = a → aliveTrace a rest = true →
    (ticksWith toDouble rest.length s).1 = { s with currentTime := rest.getLastD a } ∧
    ∀ e ∈ (ticksWith toDouble rest.length s).2, e.isTerminal = false := by
  induction rest with
  | nil =>
    intro a s _ _ ha _
    refine ⟨?_, by simp [ticksWith]⟩
    subst ha
    rfl
  | cons b rest ih =>
    intro a s hp hm ha htr
    simp only [aliveTrace, Bool.and_eq_true, decide_eq_true_eq] at htr
    obtain ⟨⟨h1, h2⟩, h3⟩ := htr
    have hb : toDouble (s.currentTime - toDouble 0.4) = b := by rw [ha]; exact h1
    have ht := tickWith_chaos_alive s hp hm (by rw [hb]; exact h2)
    rw [hb] at ht
    have hih := ih b { s with currentTime := b } hp hm rfl h3
    simp only [List.length_cons, ticksWith, ht]
    refine ⟨?_, ?_⟩
    · rw [hih.1, List.getLastD_cons]
    · intro e he
      rcases List.mem_append.mp he with he | he
      · simp at he; subst he; rfl
      · exact hih.2 e he

/-- C8, at the failing input. In the source's arithmetic (IEEE-754 doubles) a
freshly started chaos game with no input is still playing after the 75th tick:
`currentTime` is `357 / 2^53`, about `3.96e-14`, above 0, and no terminal
event has been emitted. The 76th tick leaves `currentTime` at about `-0.4`
and is the one that emits `game-over`. -/
theorem chaos_needs_76_ticks_in_doubles (s0 : State) (d : Draws) :
    (ticksWith toDouble 75 (startGame (some .chaos) d s0).1).1.isPlaying = true ∧
    (ticksWith toDouble 75 (startGame (some .chaos) d s0).1).1.currentTime
      = 357 / 9007199254740992 ∧
    (0 : ℚ) < 357 / 9007199254740992 ∧
    (∀ e ∈ (ticksWith toDouble 75 (startGame (some .chaos) d s0).1).2,
      e.isTerminal = false) ∧
    (ticksWith toDouble 76 (startGame (some .chaos) d s0).1).1.isPlaying = false ∧
    (ticksWith toDouble 76 (startGame (some .chaos) d s0).1).1.currentTime
      = -(450359962737005 / 1125899906842624) ∧
    (ticksWith toDouble 76 (startGame (some .chaos) d s0).1).2 =
      (ticksWith toDouble 75 (startGame (some .chaos) d s0).1).2 ++
        [.gameOver (startGame (some .chaos) d s0).1.score
           (startGame (some .chaos) d s0).1.totalScore] := by
  obtain ⟨hp, hm, ht, -, -, -⟩ := startGame_chaos d s0
  generalize (startGame (some .chaos) d s0).1 = s at hp hm ht
  have hlen : chaosDoubleTrace.length = 75 := by decide
  have hlast : chaosDoubleTrace.getLastD 30 = 357 / 9007199254740992 := by decide!
  have halive : aliveTrace 30 chaosDoubleTrace = true := by decide!
  have hnext : toDouble ((357 / 9007199254740992 : ℚ) - toDouble 0.4)
      = -(450359962737005 / 1125899906842624) := by decide!
  have h75 := ticksWith_chaos_trace chaosDoubleTrace 30 s hp hm ht halive
  rw [hlen, hlast] at h75
  obtain ⟨hst, hev⟩ := h75
  have gp : (ticksWith toDouble 75 s).1.isPlaying = true := by rw [hst]; exact hp
  have gm : (ticksWith toDouble 75 s).1.mode = .chaos := by rw [hst]; exact hm
  have gt : (ticksWith toDouble 75 s).1.currentTime = 357 / 9007199254740992 := by rw [hst]
  have gsc : (ticksWith toDouble 75 s).1.score = s.score := by rw [hst]
  have gts : (ticksWith toDouble 75 s).1.totalScore = s.totalScore := by rw [hst]
  have hover := tickWith_chaos_over (ticksWith toDouble 75 s).1 gp gm
    (by rw [gt, hnext]; norm_num)
  rw [gt, hnext] at hover
  refine ⟨gp, gt, by norm_num, hev, ?_⟩
  rw [ticksWith_succ toDouble 75 s]
  generalize ticksWith toDouble 75 s = q at gsc gts hover
  dsimp only
  rw [hover]
  simp [gameOver, gsc, gts]

end GameEngine
